import Mathlib

/-! # Leapshell interaction core

A shallow embedding of `src/src/Interaction.cpp` (class `Interaction`) and of the
helpers it calls, followed by theorems about the embedded functions.

Conventions of the embedding.

* `float` and `double` quantities are exact rationals (`ℚ`): rounding, infinities and
  NaN are not modelled.  The square root used by `Vector3::normalized` is a parameter
  (`Env.sqrt`).
* `Vector3` is the 3-vector of the linear algebra library, with the operations the
  source uses (`+`, `-`, scalar multiple, `dot`, `squaredNorm`, `normalized`).
* The Leap SDK value types (`Leap::Frame`, `Leap::Hand`, `Leap::Finger`) are records
  of the accessors the source reads; `toVector3` is the identity.
* `Utilities.h`, `Tile.h`, `View.h` and `Globals.h` are not among the sources.  The
  functions `ExponentialFilter::Update`, `SmootherStep` and `RayPlaneIntersection`
  are modelled from the specification; constants and the remaining members of `View`
  are fields of the parameter record `Env`.
* A `TileVector` is a list, a `Tile*` into it is an index (`Option Nat`, `none` for
  `nullptr`), and the mutable global `Globals::curTimeSeconds` is an argument.
-/

set_option autoImplicit false
set_option linter.unusedVariables false

namespace Leapshell

/-! ## Vectors -/

/-- The 3-vector type `Vector3` with rational coordinates. -/
@[ext]
structure Vector3 where
  x : ℚ
  y : ℚ
  z : ℚ
deriving DecidableEq

/-- The vector `Vector3::Zero()`. -/
def Vector3.Zero : Vector3 := ⟨0, 0, 0⟩

/-- The vector `Vector3::UnitZ()`. -/
def Vector3.UnitZ : Vector3 := ⟨0, 0, 1⟩

instance : Zero Vector3 := ⟨Vector3.Zero⟩

instance : Add Vector3 := ⟨fun a b => ⟨a.x + b.x, a.y + b.y, a.z + b.z⟩⟩

instance : Sub Vector3 := ⟨fun a b => ⟨a.x - b.x, a.y - b.y, a.z - b.z⟩⟩

instance : SMul ℚ Vector3 := ⟨fun c a => ⟨c * a.x, c * a.y, c * a.z⟩⟩

/-- The inner product `a.dot(b)`. -/
def Vector3.dot (a b : Vector3) : ℚ := a.x * b.x + a.y * b.y + a.z * b.z

/-- The squared length `a.squaredNorm()`. -/
def Vector3.squaredNorm (a : Vector3) : ℚ := a.dot a

/-- The length `a.norm()`, through the square root `sqrt`. -/
def Vector3.norm (sqrt : ℚ → ℚ) (a : Vector3) : ℚ := sqrt a.squaredNorm

/-- The vector `a.normalized()`: `a` divided by its length.  For a vector of length 0
the quotient of the rationals makes this the zero vector; what the C++ library returns
there is not modelled. -/
def Vector3.normalized (sqrt : ℚ → ℚ) (a : Vector3) : Vector3 :=
  let n := a.norm sqrt
  ⟨a.x / n, a.y / n, a.z / n⟩

/-! ## Helpers of `Utilities.h` -/

/-- Modelled from the spec: the class `ExponentialFilter` of `Utilities.h`, which is not
among the sources.  A smoothed value holds its current value, the time of its last
update, and whether it still waits for its first sample. -/
structure ExponentialFilter (T : Type) where
  value : T
  lastTimeSeconds : ℚ
  first : Bool
deriving DecidableEq

/-- Modelled from the spec: a smoothed value that has not been updated yet
(`Utilities.h` is not among the sources). -/
def ExponentialFilter.fresh {T : Type} [Zero T] : ExponentialFilter T :=
  { value := 0, lastTimeSeconds := 0, first := true }

/-- Modelled from the spec: `ExponentialFilter::Update` of `Utilities.h`, which is not
among the sources.  "If this is the first update, set value = newSample unconditionally.
Otherwise set value = smoothFactor * value_prev + (1 - smoothFactor) * newSample.
Store timeSeconds as last-update time regardless." -/
def ExponentialFilter.Update {T : Type} [Add T] [SMul ℚ T] (self : ExponentialFilter T)
    (data : T) (timeSeconds : ℚ) (smoothStrength : ℚ) : ExponentialFilter T :=
  if self.first then
    { value := data, lastTimeSeconds := timeSeconds, first := false }
  else
    { value := smoothStrength • self.value + (1 - smoothStrength) • data,
      lastTimeSeconds := timeSeconds, first := false }

/-- Modelled from the spec: `SmootherStep` of `Utilities.h`, which is not among the
sources.  "Quintic smoothstep, 6x^5 - 15x^4 + 10x^3, clamped at the domain edges." -/
def SmootherStep (x : ℚ) : ℚ :=
  if x ≤ 0 then 0
  else if 1 ≤ x then 1
  else 6 * x ^ 5 - 15 * x ^ 4 + 10 * x ^ 3

/-- Modelled from the spec: the threshold under which `RayPlaneIntersection` treats the
denominator as zero ("a small epsilon, e.g. 1e-6"). -/
def RAY_PLANE_EPSILON : ℚ := 1 / 1000000

/-- Modelled from the spec: `RayPlaneIntersection` of `Utilities.h`, which is not among
the sources.  It fails when the ray is parallel to the plane (denominator below the
epsilon) or when the intersection lies behind the ray origin (negative parameter);
otherwise it returns the point of the ray at that parameter.  The `bool` result and the
out-parameter `hit` are one `Option`. -/
def RayPlaneIntersection (rayOrigin rayDirection planePoint planeNormal : Vector3) :
    Option Vector3 :=
  let denom := rayDirection.dot planeNormal
  if |denom| < RAY_PLANE_EPSILON then none
  else
    let t := (planePoint - rayOrigin).dot planeNormal / denom
    if t < 0 then none
    else some (rayOrigin + t • rayDirection)

/-! ## Data read from the sensor and the view -/

/-- A `Leap::Finger`: the accessors read by `forceFromHand`. -/
structure Finger where
  isExtended : Bool
  direction : Vector3
  tipVelocity : Vector3
deriving DecidableEq

/-- A `Leap::Hand`: the accessors read by `Interaction`. -/
structure Hand where
  isLeft : Bool
  isRight : Bool
  palmPosition : Vector3
  palmNormal : Vector3
  direction : Vector3
  grabStrength : ℚ
  pinchStrength : ℚ
  fingers : List Finger
deriving DecidableEq

/-- A `Leap::Frame`: validity, timestamp in sensor ticks, and the hands. -/
structure Frame where
  isValid : Bool
  timestamp : Int
  hands : List Hand
deriving DecidableEq

/-- The invalid frame a default-constructed `Leap::Frame` holds. -/
def Frame.invalid : Frame := { isValid := false, timestamp := 0, hands := [] }

/-- A `Tile`: the members `applyInfluenceToTiles` reads and writes. -/
structure Tile where
  m_position : Vector3
  m_activationSmoother : ExponentialFilter ℚ
  m_highlightSmoother : ExponentialFilter ℚ
deriving DecidableEq

/-- A `View`, as far as `Interaction` reads it: `Tiles()` and `LookAt()`. -/
structure View where
  tiles : List Tile
  lookAt : Vector3
deriving DecidableEq

/-- What the code takes from headers that are not among the sources: the square root,
the constants `TIME_STAMP_TICKS_TO_SECS`, `Tile::ACTIVATION_SMOOTH`,
`View::CAM_DISTANCE_FROM_PLANE` and `Globals::LEAP_OFFSET`, and the members of `View`
that `UpdateView` calls (`ApplyVelocity`, `LeftHand().Update`, `RightHand().Update`). -/
structure Env where
  sqrt : ℚ → ℚ
  TIME_STAMP_TICKS_TO_SECS : ℚ
  ACTIVATION_SMOOTH : ℚ
  CAM_DISTANCE_FROM_PLANE : ℚ
  LEAP_OFFSET : Vector3
  ApplyVelocity : View → Vector3 → ℚ → ℚ → View
  LeftHandUpdate : View → Hand → ℚ → View
  RightHandUpdate : View → Hand → ℚ → View

/-! ## `Interaction` -/

/-- The members of class `Interaction`. -/
structure Interaction where
  m_prevFrame : Frame
  m_panForce : ExponentialFilter Vector3
  m_lastViewUpdateTime : ℚ
deriving DecidableEq

namespace Interaction

/-- The constant `FORCE_POSITION_SCALE` of `Update`. -/
def FORCE_POSITION_SCALE : ℚ := -1 / 10

/-- The constant `SPEED_UP_SMOOTH` of `Update`. -/
def SPEED_UP_SMOOTH : ℚ := 75 / 100

/-- The constant `SLOW_DOWN_SMOOTH` of `Update`. -/
def SLOW_DOWN_SMOOTH : ℚ := 95 / 100

/-- The constant `MAX_INFLUENCE_DISTANCE_SQ` of `applyInfluenceToTiles`. -/
def MAX_INFLUENCE_DISTANCE_SQ : ℚ := 30 * 30

/-- The constructor `Interaction::Interaction()`: the members are default-constructed,
then the pan smoother receives one update and the view time is set to zero. -/
def new : Interaction :=
  { m_prevFrame := Frame.invalid,
    m_panForce := (ExponentialFilter.fresh : ExponentialFilter Vector3).Update Vector3.Zero 0 (1 / 2),
    m_lastViewUpdateTime := 0 }

/-- The body of the finger loop of `forceFromHand`: one iteration, from the running
total to the next. -/
def forceStep (E : Env) (hand : Hand) (totalForce : Vector3) (finger : Finger) : Vector3 :=
  let handDirection := hand.direction
  if !finger.isExtended then totalForce
  else
    let direction := finger.direction
    let velocity := finger.tipVelocity
    let normVelocity := velocity.normalized E.sqrt
    let dot := |normVelocity.dot hand.palmNormal|
    let matchDir := direction.dot handDirection
    let grabMultiplier := 1 - SmootherStep (max hand.grabStrength hand.pinchStrength)
    totalForce + (grabMultiplier * grabMultiplier * grabMultiplier * dot * dot * matchDir) • velocity

/-- The function `Interaction::forceFromHand`. -/
def forceFromHand (E : Env) (hand : Hand) : Vector3 :=
  hand.fingers.foldl (forceStep E hand) Vector3.Zero

/-- The function `Interaction::Update`. -/
def Update (E : Env) (self : Interaction) (frame : Frame) : Interaction :=
  let hands := frame.hands
  let deltaTime : ℚ :=
    if self.m_prevFrame.isValid then
      E.TIME_STAMP_TICKS_TO_SECS * ((frame.timestamp - self.m_prevFrame.timestamp : Int) : ℚ)
    else 0
  let timeSeconds : ℚ := E.TIME_STAMP_TICKS_TO_SECS * (frame.timestamp : ℚ)
  let force := hands.foldl (fun force hand => force + forceFromHand E hand) Vector3.Zero
  let force := FORCE_POSITION_SCALE • force
  let prevForce := self.m_panForce.value
  let curSmooth :=
    if force.squaredNorm > prevForce.squaredNorm then SPEED_UP_SMOOTH else SLOW_DOWN_SMOOTH
  { self with
    m_panForce := self.m_panForce.Update force timeSeconds curSmooth,
    m_prevFrame := frame }

/-- The function `Interaction::projectToPlane`; the `bool` result and the out-parameter
`hit` are one `Option`. -/
def projectToPlane (E : Env) (hand : Hand) : Option Vector3 :=
  let origin := E.CAM_DISTANCE_FROM_PLANE • Vector3.UnitZ
  let center := Vector3.Zero
  let normal := Vector3.UnitZ
  let position := hand.palmPosition + E.LEAP_OFFSET
  let direction := (position - origin).normalized E.sqrt
  RayPlaneIntersection origin direction center normal

/-- The closest-tile scan of `applyInfluenceToTiles`, from the tile of index `i` on: the
state is the pair of `closestDistSq` and `closestTile`. -/
def closestScan (hitPoint : Vector3) : List Tile → Nat → ℚ × Option Nat → ℚ × Option Nat
  | [], _, st => st
  | tile :: rest, i, (closestDistSq, closestTile) =>
    let distSq := (hitPoint - tile.m_position).squaredNorm
    if distSq < closestDistSq then closestScan hitPoint rest (i + 1) (distSq, some i)
    else closestScan hitPoint rest (i + 1) (closestDistSq, closestTile)

/-- The pointer `closestTile` after the scan, which starts from
`MAX_INFLUENCE_DISTANCE_SQ` and `nullptr`. -/
def closestTile (hitPoint : Vector3) (tiles : List Tile) : Option Nat :=
  (closestScan hitPoint tiles 0 (MAX_INFLUENCE_DISTANCE_SQ, none)).2

/-- The two updates `applyInfluenceToTiles` applies to the closest tile of a hand whose
grab multiplier is `grabMultiplier`. -/
def touchTile (E : Env) (curTimeSeconds grabMultiplier : ℚ) (tile : Tile) : Tile :=
  let newActivation : ℚ := if tile.m_highlightSmoother.value > 95 / 100 then grabMultiplier else 0
  let activation := tile.m_activationSmoother.Update newActivation curTimeSeconds E.ACTIVATION_SMOOTH
  let highlight := tile.m_highlightSmoother.Update 1 curTimeSeconds E.ACTIVATION_SMOOTH
  { tile with m_activationSmoother := activation, m_highlightSmoother := highlight }

/-- The body of the hand loop of `applyInfluenceToTiles` after `hitPoint += lookat`. -/
def influenceAt (E : Env) (curTimeSeconds : ℚ) (hitPoint : Vector3) (hand : Hand)
    (tiles : List Tile) : List Tile :=
  let grabMultiplier := SmootherStep (max hand.grabStrength hand.pinchStrength)
  match closestTile hitPoint tiles with
  | none => tiles
  | some i => tiles.modify (touchTile E curTimeSeconds grabMultiplier) i

/-- The body of the hand loop of `applyInfluenceToTiles`: one iteration. -/
def handStep (E : Env) (curTimeSeconds : ℚ) (lookat : Vector3) (tiles : List Tile)
    (hand : Hand) : List Tile :=
  match projectToPlane E hand with
  | none => tiles
  | some hit => influenceAt E curTimeSeconds (hit + lookat) hand tiles

/-- The body of the second loop of `applyInfluenceToTiles`: a tile whose activation
smoother was not stamped with the current time is decayed. -/
def decayTile (E : Env) (curTimeSeconds : ℚ) (tile : Tile) : Tile :=
  if tile.m_activationSmoother.lastTimeSeconds ≠ curTimeSeconds then
    { tile with
      m_activationSmoother := tile.m_activationSmoother.Update 0 curTimeSeconds E.ACTIVATION_SMOOTH,
      m_highlightSmoother := tile.m_highlightSmoother.Update 0 curTimeSeconds E.ACTIVATION_SMOOTH }
  else tile

/-- The function `Interaction::applyInfluenceToTiles`. -/
def applyInfluenceToTiles (E : Env) (curTimeSeconds : ℚ) (hands : List Hand) (view : View) :
    View :=
  let lookat := view.lookAt
  let tiles := hands.foldl (handStep E curTimeSeconds lookat) view.tiles
  { view with tiles := tiles.map (decayTile E curTimeSeconds) }

/-- The body of the hand loop of `UpdateView`. -/
def proxyStep (E : Env) (curTimeSeconds : ℚ) (view : View) (hand : Hand) : View :=
  if hand.isLeft then E.LeftHandUpdate view hand curTimeSeconds
  else if hand.isRight then E.RightHandUpdate view hand curTimeSeconds
  else view

/-- The function `Interaction::UpdateView`; `none` is the failure of
`assert(deltaTime > 0)`. -/
def UpdateView (E : Env) (curTimeSeconds : ℚ) (self : Interaction) (view : View) :
    Option (Interaction × View) :=
  let deltaTime := curTimeSeconds - self.m_lastViewUpdateTime
  if ¬ (deltaTime > 0) then none
  else
    let view := E.ApplyVelocity view self.m_panForce.value curTimeSeconds deltaTime
    let hands := self.m_prevFrame.hands
    let view := hands.foldl (proxyStep E curTimeSeconds) view
    let view := applyInfluenceToTiles E curTimeSeconds hands view
    some ({ self with m_lastViewUpdateTime := curTimeSeconds }, view)

end Interaction

/-! ## Quantities the statements are written with -/

namespace Interaction

/-- The squared distance `distSq` of a tile from the hit point, as the closest-tile scan
computes it. -/
def tileDistSq (hitPoint : Vector3) (tile : Tile) : ℚ :=
  (hitPoint - tile.m_position).squaredNorm

/-- The contribution of one finger to the force of its hand, in the words of the
specification: `grabFactor^3 * dot^2 * match * tipVelocity`. -/
def fingerContribution (E : Env) (hand : Hand) (finger : Finger) : Vector3 :=
  let dot := |(finger.tipVelocity.normalized E.sqrt).dot hand.palmNormal|
  let matchDir := finger.direction.dot hand.direction
  let grabFactor := 1 - SmootherStep (max hand.grabStrength hand.pinchStrength)
  (grabFactor ^ 3 * dot ^ 2 * matchDir) • finger.tipVelocity

/-- The force `Update` feeds to the pan smoother: the sum of `forceFromHand` over the
hands of the frame, scaled by `FORCE_POSITION_SCALE`. -/
def scaledForce (E : Env) (frame : Frame) : Vector3 :=
  FORCE_POSITION_SCALE • (frame.hands.map (forceFromHand E)).sum

/-- The smoothing factor `Update` selects for the scaled force `F` and the previous pan
value `P`. -/
def curSmooth (F P : Vector3) : ℚ :=
  if F.squaredNorm > P.squaredNorm then SPEED_UP_SMOOTH else SLOW_DOWN_SMOOTH

/-- Tile `i` is the first tile of the collection that attains the least squared distance
to the hit point, and that distance is strictly below `MAX_INFLUENCE_DISTANCE_SQ`. -/
def FirstNearest (hitPoint : Vector3) (tiles : List Tile) (i : Nat) : Prop :=
  ∃ t, tiles[i]? = some t ∧ tileDistSq hitPoint t < 900 ∧
    (∀ (j : Nat) (u : Tile), tiles[j]? = some u →
      tileDistSq hitPoint t ≤ tileDistSq hitPoint u) ∧
    (∀ (j : Nat) (u : Tile), j < i → tiles[j]? = some u →
      tileDistSq hitPoint t < tileDistSq hitPoint u)

/-- The value `grabMultiplier` that `applyInfluenceToTiles` computes for a hand. -/
def grabMultiplier (hand : Hand) : ℚ :=
  SmootherStep (max hand.grabStrength hand.pinchStrength)

/-- The tile a hand selects in `applyInfluenceToTiles`: none when the projection misses
the plane, else the closest tile to the hit point moved by the look-at point. -/
def selectedBy (E : Env) (lookat : Vector3) (tiles : List Tile) (hand : Hand) : Option Nat :=
  match projectToPlane E hand with
  | none => none
  | some hit => closestTile (hit + lookat) tiles

/-- The hands of a list that select tile `j`, in the order of the list. -/
def handsOn (E : Env) (lookat : Vector3) (tiles : List Tile) (hands : List Hand) (j : Nat) :
    List Hand :=
  hands.filter (fun h => decide (selectedBy E lookat tiles h = some j))

/-- The two updates of tile `t` for a hand that selects it. -/
def touchBy (E : Env) (curTimeSeconds : ℚ) (t : Tile) (hand : Hand) : Tile :=
  touchTile E curTimeSeconds (grabMultiplier hand) t

/-- Tile state `t2` comes from tile state `t` by exactly one update of each smoother at
time `cur`: the activation toward the grab multiplier of one of the hands or toward 0,
the highlight toward 1 or toward 0. -/
def OneUpdateEach (E : Env) (cur : ℚ) (hands : List Hand) (t t2 : Tile) : Prop :=
  (∃ target : ℚ, (target = 0 ∨ ∃ h ∈ hands, target = grabMultiplier h) ∧
      t2.m_activationSmoother = t.m_activationSmoother.Update target cur E.ACTIVATION_SMOOTH) ∧
    (t2.m_highlightSmoother = t.m_highlightSmoother.Update 1 cur E.ACTIVATION_SMOOTH ∨
      t2.m_highlightSmoother = t.m_highlightSmoother.Update 0 cur E.ACTIVATION_SMOOTH)

/-- Successive view ticks: `applyInfluenceToTiles` with the same hands at each render
time of the list, in order. -/
def ticks (E : Env) (hands : List Hand) (times : List ℚ) (view : View) : View :=
  times.foldl (fun v cur => applyInfluenceToTiles E cur hands v) view

/-- The activation value of tile `i` of a view (0 if there is no such tile). -/
def activationAt (view : View) (i : Nat) : ℚ :=
  match view.tiles[i]? with
  | some t => t.m_activationSmoother.value
  | none => 0

/-- The state a hover holds from tick to tick: the hand selects tile `i`, whose
smoothers have had their first update, whose highlight value is 1 and whose activation
value is `a`. -/
def Hovering (E : Env) (hand : Hand) (i : Nat) (view : View) (a : ℚ) : Prop :=
  selectedBy E view.lookAt view.tiles hand = some i ∧
    ∃ t, view.tiles[i]? = some t ∧ t.m_highlightSmoother.value = 1 ∧
      t.m_highlightSmoother.first = false ∧ t.m_activationSmoother.first = false ∧
      t.m_activationSmoother.value = a

/-- The members of `View` that `UpdateView` calls outside this class leave the positions
of the tiles, their number and their order as they are. -/
def ExternalsKeepTiles (E : Env) : Prop :=
  (∀ (v : View) (F : Vector3) (c d : ℚ),
      (E.ApplyVelocity v F c d).tiles.map (fun t => t.m_position)
        = v.tiles.map (fun t => t.m_position)) ∧
    (∀ (v : View) (h : Hand) (c : ℚ),
      (E.LeftHandUpdate v h c).tiles.map (fun t => t.m_position)
        = v.tiles.map (fun t => t.m_position)) ∧
    (∀ (v : View) (h : Hand) (c : ℚ),
      (E.RightHandUpdate v h c).tiles.map (fun t => t.m_position)
        = v.tiles.map (fun t => t.m_position))

/-- The activation and highlight values of a tile lie in `[0,1]`. -/
def TileInRange (t : Tile) : Prop :=
  0 ≤ t.m_activationSmoother.value ∧ t.m_activationSmoother.value ≤ 1 ∧
    0 ≤ t.m_highlightSmoother.value ∧ t.m_highlightSmoother.value ≤ 1

end Interaction

/-! ## Sample data -/

/-- A sample environment: the floor square root of the rationals (exact on squares),
a tick of one microsecond, smoothing one half, the camera 100 units from the plane, no
sensor offset, and view members that leave the view as it is. -/
def sampleEnv : Env :=
  { sqrt := Rat.sqrt,
    TIME_STAMP_TICKS_TO_SECS := 1 / 1000000,
    ACTIVATION_SMOOTH := 1 / 2,
    CAM_DISTANCE_FROM_PLANE := 100,
    LEAP_OFFSET := Vector3.Zero,
    ApplyVelocity := fun view _ _ _ => view,
    LeftHandUpdate := fun view _ _ => view,
    RightHandUpdate := fun view _ _ => view }

/-- A sample finger: extended or not, pointing along y, its tip moving along z. -/
def sampleFinger (extended : Bool) : Finger :=
  { isExtended := extended, direction := ⟨0, 1, 0⟩, tipVelocity := ⟨0, 0, 2⟩ }

/-- A sample hand above the origin, palm facing down the z axis and pointing along y,
with the given strengths and fingers. -/
def sampleHand (grab pinch : ℚ) (fingers : List Finger) : Hand :=
  { isLeft := true, isRight := false, palmPosition := ⟨0, 0, 50⟩, palmNormal := ⟨0, 0, -1⟩,
    direction := ⟨0, 1, 0⟩, grabStrength := grab, pinchStrength := pinch, fingers := fingers }

/-- A sample tile at the point `(px, 0, 0)` whose smoothers were last updated at time 0
with the given activation and highlight values. -/
def sampleTile (px activation highlight : ℚ) : Tile :=
  { m_position := ⟨px, 0, 0⟩,
    m_activationSmoother := { value := activation, lastTimeSeconds := 0, first := false },
    m_highlightSmoother := { value := highlight, lastTimeSeconds := 0, first := false } }

/-- A sample hand above the camera, whose ray from the camera points away from the
plane. -/
def awayHand : Hand :=
  { sampleHand 0 0 [] with palmPosition := ⟨0, 0, 150⟩ }

/-! ## Vector algebra -/

@[simp]
theorem Vector3.add_x (a b : Vector3) : (a + b).x = a.x + b.x := rfl
@[simp]
theorem Vector3.add_y (a b : Vector3) : (a + b).y = a.y + b.y := rfl
@[simp]
theorem Vector3.add_z (a b : Vector3) : (a + b).z = a.z + b.z := rfl
@[simp]
theorem Vector3.sub_x (a b : Vector3) : (a - b).x = a.x - b.x := rfl
@[simp]
theorem Vector3.sub_y (a b : Vector3) : (a - b).y = a.y - b.y := rfl
@[simp]
theorem Vector3.sub_z (a b : Vector3) : (a - b).z = a.z - b.z := rfl
@[simp]
theorem Vector3.smul_x (c : ℚ) (a : Vector3) : (c • a).x = c * a.x := rfl
@[simp]
theorem Vector3.smul_y (c : ℚ) (a : Vector3) : (c • a).y = c * a.y := rfl
@[simp]
theorem Vector3.smul_z (c : ℚ) (a : Vector3) : (c • a).z = c * a.z := rfl
@[simp]
theorem Vector3.zero_x : (0 : Vector3).x = 0 := rfl
@[simp]
theorem Vector3.zero_y : (0 : Vector3).y = 0 := rfl
@[simp]
theorem Vector3.zero_z : (0 : Vector3).z = 0 := rfl
@[simp]
theorem Vector3.Zero_eq : Vector3.Zero = 0 := rfl

theorem Vector3.add_assoc3 (a b c : Vector3) : a + b + c = a + (b + c) := by
  ext <;> simp <;> ring

theorem Vector3.add_zero3 (a : Vector3) : a + 0 = a := by
  ext <;> simp

theorem Vector3.zero_add3 (a : Vector3) : 0 + a = a := by
  ext <;> simp

/-- A left fold that adds `f` of each element to the accumulator is the accumulator
plus the sum of the mapped list. -/
theorem foldl_add_eq_sum {α : Type} (f : α → Vector3) (l : List α) (acc : Vector3) :
    l.foldl (fun t a => t + f a) acc = acc + (l.map f).sum := by
  induction l generalizing acc with
  | nil => simp [Vector3.add_zero3]
  | cons a l ih => simp [ih, Vector3.add_assoc3]

namespace Interaction

/-! ## Force extraction -/

theorem forceStep_eq (E : Env) (hand : Hand) (total : Vector3) (finger : Finger) :
    forceStep E hand total finger
      = if finger.isExtended then total + fingerContribution E hand finger else total := by
  unfold forceStep fingerContribution
  cases finger.isExtended
  · simp
  · simp only [Bool.not_true, Bool.false_eq_true, if_false, if_true]
    congr 2
    ring

theorem foldl_forceStep (E : Env) (hand : Hand) (fingers : List Finger) (acc : Vector3) :
    fingers.foldl (forceStep E hand) acc
      = acc + ((fingers.filter (fun f => f.isExtended)).map (fingerContribution E hand)).sum := by
  induction fingers generalizing acc with
  | nil => simp [Vector3.add_zero3]
  | cons f fs ih =>
    rw [List.foldl_cons, ih, forceStep_eq]
    cases hf : f.isExtended
    · simp [List.filter_cons, hf]
    · simp [List.filter_cons, hf, Vector3.add_assoc3]

/-- C1: for every hand, `forceFromHand` is the sum, over exactly the fingers whose
extended flag is true, of `grabFactor^3 * dot^2 * match * tipVelocity`, with
`dot = |normalize(tipVelocity) · palmNormal|`, `match = fingerDirection · handDirection`
and `grabFactor = 1 - SmootherStep(max(grabStrength, pinchStrength))`; the fingers that
are not extended are left out of the sum. -/
theorem forceFromHand_eq_sum (E : Env) (hand : Hand) :
    forceFromHand E hand
      = ((hand.fingers.filter (fun f => f.isExtended)).map
          (fun finger =>
            ((1 - SmootherStep (max hand.grabStrength hand.pinchStrength)) ^ 3
              * |(finger.tipVelocity.normalized E.sqrt).dot hand.palmNormal| ^ 2
              * finger.direction.dot hand.direction) • finger.tipVelocity)).sum := by
  unfold forceFromHand
  rw [foldl_forceStep, Vector3.Zero_eq, Vector3.zero_add3]
  rfl

theorem SmootherStep_of_one_le (x : ℚ) (h : 1 ≤ x) : SmootherStep x = 1 := by
  unfold SmootherStep
  rw [if_neg (by linarith), if_pos h]

theorem SmootherStep_zero : SmootherStep 0 = 0 := by
  simp [SmootherStep]

theorem forceFromHand_sum_contrib (E : Env) (hand : Hand) :
    forceFromHand E hand
      = ((hand.fingers.filter (fun f => f.isExtended)).map (fingerContribution E hand)).sum := by
  unfold forceFromHand
  rw [foldl_forceStep, Vector3.Zero_eq, Vector3.zero_add3]

/-- C2: a hand with `grabStrength = 1` yields the zero force, whatever its pinch
strength, its fingers, their extended flags, directions and tip velocities (with the
quintic `SmootherStep`, for which `SmootherStep(1) = 1`). -/
theorem forceFromHand_closed (E : Env) (hand : Hand) (h : hand.grabStrength = 1) :
    forceFromHand E hand = Vector3.Zero := by
  have hs : SmootherStep (max hand.grabStrength hand.pinchStrength) = 1 :=
    SmootherStep_of_one_le _ (by rw [h]; exact le_max_left _ _)
  rw [forceFromHand_sum_contrib]
  have : ∀ l : List Finger, (l.map (fingerContribution E hand)).sum = (0 : Vector3) := by
    intro l
    induction l with
    | nil => rfl
    | cons a l ih =>
      rw [List.map_cons, List.sum_cons, ih]
      ext <;> simp [fingerContribution, hs]
  rw [this]
  rfl

theorem forceFromHand_closed_witness :
    (sampleHand 1 (1 / 3) [sampleFinger true, sampleFinger false]).grabStrength = 1 ∧
      forceFromHand sampleEnv (sampleHand 1 (1 / 3) [sampleFinger true, sampleFinger false])
        = Vector3.Zero :=
  ⟨rfl, forceFromHand_closed sampleEnv _ rfl⟩

/-- C3: a hand all of whose fingers have `extended = false` (a hand with no fingers
included) yields the zero force, whatever the tip velocities, the directions and the
grab and pinch strengths are. -/
theorem forceFromHand_no_extended (E : Env) (hand : Hand)
    (h : ∀ f ∈ hand.fingers, f.isExtended = false) :
    forceFromHand E hand = Vector3.Zero := by
  rw [forceFromHand_sum_contrib]
  have : hand.fingers.filter (fun f => f.isExtended) = [] := by
    rw [List.filter_eq_nil_iff]
    intro f hf
    simp [h f hf]
  rw [this]
  rfl

theorem forceFromHand_no_extended_witness :
    (∀ f ∈ (sampleHand 0 0 [sampleFinger false, sampleFinger false]).fingers,
        f.isExtended = false) ∧
      forceFromHand sampleEnv (sampleHand 0 0 [sampleFinger false, sampleFinger false])
        = Vector3.Zero :=
  ⟨by simp [sampleHand, sampleFinger],
    forceFromHand_no_extended sampleEnv _ (by simp [sampleHand, sampleFinger])⟩

/-! ## Pan aggregation -/

theorem Update_panForce (E : Env) (self : Interaction) (frame : Frame) :
    (Update E self frame).m_panForce
      = self.m_panForce.Update (scaledForce E frame)
          (E.TIME_STAMP_TICKS_TO_SECS * (frame.timestamp : ℚ))
          (curSmooth (scaledForce E frame) self.m_panForce.value) := by
  simp only [Update, scaledForce, curSmooth, foldl_add_eq_sum, Vector3.Zero_eq,
    Vector3.zero_add3]

theorem Update_first (E : Env) (self : Interaction) (frame : Frame) :
    (Update E self frame).m_panForce.first = false := by
  rw [Update_panForce]
  unfold ExponentialFilter.Update
  split <;> rfl

theorem new_first : Interaction.new.m_panForce.first = false := rfl

theorem new_value : Interaction.new.m_panForce.value = 0 := rfl

theorem Update_value (E : Env) (self : Interaction) (frame : Frame)
    (h : self.m_panForce.first = false) :
    (Update E self frame).m_panForce.value
      = curSmooth (scaledForce E frame) self.m_panForce.value • self.m_panForce.value
        + (1 - curSmooth (scaledForce E frame) self.m_panForce.value) • scaledForce E frame := by
  rw [Update_panForce]
  simp [ExponentialFilter.Update, h]

theorem Update_lastTime (E : Env) (self : Interaction) (frame : Frame) :
    (Update E self frame).m_panForce.lastTimeSeconds
      = E.TIME_STAMP_TICKS_TO_SECS * (frame.timestamp : ℚ) := by
  rw [Update_panForce]
  unfold ExponentialFilter.Update
  split <;> rfl

/-- C4: for a controller state whose pan smoother has had its first update (as every
state has from the constructor on) with pan value `P`, and every frame, `Update` sets
the pan value to `s * P + (1 - s) * F`, where `F` is `-0.1` times the sum of
`forceFromHand` over the hands of the frame and `s` is `0.75` if `|F|^2 > |P|^2` and
`0.95` otherwise, and stamps the pan smoother with the frame timestamp in seconds. -/
theorem Update_pan_value (E : Env) (self : Interaction) (frame : Frame)
    (h : self.m_panForce.first = false) :
    (Update E self frame).m_panForce.value
        = (if ((-1 / 10 : ℚ) • (frame.hands.map (forceFromHand E)).sum).squaredNorm
              > self.m_panForce.value.squaredNorm then (75 / 100 : ℚ) else 95 / 100)
            • self.m_panForce.value
          + (1 - (if ((-1 / 10 : ℚ) • (frame.hands.map (forceFromHand E)).sum).squaredNorm
              > self.m_panForce.value.squaredNorm then (75 / 100 : ℚ) else 95 / 100))
            • ((-1 / 10 : ℚ) • (frame.hands.map (forceFromHand E)).sum)
      ∧ (Update E self frame).m_panForce.lastTimeSeconds
        = E.TIME_STAMP_TICKS_TO_SECS * (frame.timestamp : ℚ) :=
  ⟨Update_value E self frame h, Update_lastTime E self frame⟩

theorem Update_pan_value_witness :
    Interaction.new.m_panForce.first = false ∧
    ((Update sampleEnv Interaction.new
          ⟨true, 2000000, [sampleHand 0 0 [sampleFinger true]]⟩).m_panForce.value
        = (if ((-1 / 10 : ℚ) • (([sampleHand 0 0 [sampleFinger true]]).map
                (forceFromHand sampleEnv)).sum).squaredNorm
              > Interaction.new.m_panForce.value.squaredNorm then (75 / 100 : ℚ) else 95 / 100)
            • Interaction.new.m_panForce.value
          + (1 - (if ((-1 / 10 : ℚ) • (([sampleHand 0 0 [sampleFinger true]]).map
                (forceFromHand sampleEnv)).sum).squaredNorm
              > Interaction.new.m_panForce.value.squaredNorm then (75 / 100 : ℚ) else 95 / 100))
            • ((-1 / 10 : ℚ) • (([sampleHand 0 0 [sampleFinger true]]).map
                (forceFromHand sampleEnv)).sum)
      ∧ (Update sampleEnv Interaction.new
          ⟨true, 2000000, [sampleHand 0 0 [sampleFinger true]]⟩).m_panForce.lastTimeSeconds
        = sampleEnv.TIME_STAMP_TICKS_TO_SECS * ((2000000 : Int) : ℚ)) :=
  ⟨rfl, Update_pan_value sampleEnv Interaction.new
    ⟨true, 2000000, [sampleHand 0 0 [sampleFinger true]]⟩ rfl⟩

/-! ## Closest-tile scan -/

theorem closestScan_spec (hitPoint : Vector3) (l : List Tile) (i : Nat) (D : ℚ)
    (sel : Option Nat) :
    ((closestScan hitPoint l i (D, sel)).1 ≤ D ∧
      ∀ t ∈ l, (closestScan hitPoint l i (D, sel)).1 ≤ tileDistSq hitPoint t) ∧
    (((closestScan hitPoint l i (D, sel)).2 = sel ∧ (closestScan hitPoint l i (D, sel)).1 = D) ∨
      ∃ k t, l[k]? = some t ∧ (closestScan hitPoint l i (D, sel)).2 = some (i + k) ∧
        (closestScan hitPoint l i (D, sel)).1 = tileDistSq hitPoint t ∧
        tileDistSq hitPoint t < D ∧
        ∀ j u, j < k → l[j]? = some u → tileDistSq hitPoint t < tileDistSq hitPoint u) := by
  induction l generalizing i D sel with
  | nil => simp [closestScan]
  | cons a l ih =>
    by_cases h : tileDistSq hitPoint a < D
    · have hs : closestScan hitPoint (a :: l) i (D, sel)
          = closestScan hitPoint l (i + 1) (tileDistSq hitPoint a, some i) := by
        simp only [closestScan]
        exact if_pos h
      rw [hs]
      obtain ⟨⟨h1, h2⟩, h3⟩ := ih (i + 1) (tileDistSq hitPoint a) (some i)
      refine ⟨⟨le_trans h1 (le_of_lt h), ?_⟩, ?_⟩
      · intro t ht
        rcases List.mem_cons.1 ht with rfl | ht
        · exact h1
        · exact h2 t ht
      · right
        rcases h3 with ⟨e1, e2⟩ | ⟨k, t, hk, e1, e2, e3, e4⟩
        · refine ⟨0, a, by simp, by simpa using e1, e2, h, ?_⟩
          intro j u hj
          omega
        · refine ⟨k + 1, t, by simpa using hk, ?_, e2, lt_trans e3 h, ?_⟩
          · rw [e1]
            congr 1
            omega
          · intro j u hj hu
            cases j with
            | zero =>
              simp at hu
              subst hu
              exact e3
            | succ j => exact e4 j u (by omega) (by simpa using hu)
    · have hs : closestScan hitPoint (a :: l) i (D, sel)
          = closestScan hitPoint l (i + 1) (D, sel) := by
        simp only [closestScan]
        exact if_neg h
      rw [hs]
      obtain ⟨⟨h1, h2⟩, h3⟩ := ih (i + 1) D sel
      have hD : D ≤ tileDistSq hitPoint a := not_lt.1 h
      refine ⟨⟨h1, ?_⟩, ?_⟩
      · intro t ht
        rcases List.mem_cons.1 ht with rfl | ht
        · exact le_trans h1 hD
        · exact h2 t ht
      · rcases h3 with ⟨e1, e2⟩ | ⟨k, t, hk, e1, e2, e3, e4⟩
        · exact Or.inl ⟨e1, e2⟩
        · right
          refine ⟨k + 1, t, by simpa using hk, ?_, e2, e3, ?_⟩
          · rw [e1]
            congr 1
            omega
          · intro j u hj hu
            cases j with
            | zero =>
              simp at hu
              subst hu
              exact lt_of_lt_of_le e3 hD
            | succ j => exact e4 j u (by omega) (by simpa using hu)

theorem closestTile_some (hitPoint : Vector3) (tiles : List Tile) (i : Nat)
    (h : closestTile hitPoint tiles = some i) : FirstNearest hitPoint tiles i := by
  unfold closestTile at h
  obtain ⟨⟨h1, h2⟩, h3⟩ := closestScan_spec hitPoint tiles 0 MAX_INFLUENCE_DISTANCE_SQ none
  rcases h3 with ⟨e1, _⟩ | ⟨k, t, hk, e1, e2, e3, e4⟩
  · rw [h] at e1
    cases e1
  · rw [h] at e1
    have hik : i = k := by simpa using e1
    subst hik
    refine ⟨t, hk, ?_, ?_, e4⟩
    · have : MAX_INFLUENCE_DISTANCE_SQ = 900 := by norm_num [MAX_INFLUENCE_DISTANCE_SQ]
      rw [← this]
      exact e3
    · intro j u hu
      rw [← e2]
      exact h2 u (List.getElem?_mem hu)

theorem closestTile_none (hitPoint : Vector3) (tiles : List Tile)
    (h : closestTile hitPoint tiles = none) : ∀ t ∈ tiles, 900 ≤ tileDistSq hitPoint t := by
  unfold closestTile at h
  obtain ⟨⟨h1, h2⟩, h3⟩ := closestScan_spec hitPoint tiles 0 MAX_INFLUENCE_DISTANCE_SQ none
  have hM : MAX_INFLUENCE_DISTANCE_SQ = 900 := by norm_num [MAX_INFLUENCE_DISTANCE_SQ]
  rcases h3 with ⟨_, e2⟩ | ⟨k, t, hk, e1, e2, e3, e4⟩
  · intro t ht
    rw [← hM, ← e2]
    exact h2 t ht
  · rw [h] at e1
    cases e1

theorem FirstNearest_unique (hitPoint : Vector3) (tiles : List Tile) (i k : Nat)
    (hi : FirstNearest hitPoint tiles i) (hk : FirstNearest hitPoint tiles k) : i = k := by
  obtain ⟨t, ht, _, a1, a2⟩ := hi
  obtain ⟨u, hu, _, b1, b2⟩ := hk
  rcases Nat.lt_trichotomy i k with hlt | heq | hgt
  · exact absurd (b2 i t hlt ht) (not_lt.2 (a1 k u hu))
  · exact heq
  · exact absurd (a2 k u hgt hu) (not_lt.2 (b1 i t ht))

theorem closestTile_iff (hitPoint : Vector3) (tiles : List Tile) (i : Nat) :
    closestTile hitPoint tiles = some i ↔ FirstNearest hitPoint tiles i := by
  constructor
  · exact closestTile_some hitPoint tiles i
  · intro hi
    cases hc : closestTile hitPoint tiles with
    | none =>
      obtain ⟨t, ht, hlt, _, _⟩ := hi
      exact absurd hlt (not_lt.2 (closestTile_none hitPoint tiles hc t (List.getElem?_mem ht)))
    | some k =>
      rw [FirstNearest_unique hitPoint tiles i k hi (closestTile_some hitPoint tiles k hc)]

theorem closestTile_none_iff (hitPoint : Vector3) (tiles : List Tile) :
    closestTile hitPoint tiles = none ↔ ∀ t ∈ tiles, 900 ≤ tileDistSq hitPoint t := by
  constructor
  · exact closestTile_none hitPoint tiles
  · intro hall
    cases hc : closestTile hitPoint tiles with
    | none => rfl
    | some k =>
      obtain ⟨t, ht, hlt, _, _⟩ := closestTile_some hitPoint tiles k hc
      exact absurd hlt (not_lt.2 (hall t (List.getElem?_mem ht)))

/-! ## The hand loop and the decay loop, tile by tile -/

theorem closestScan_congr (hitPoint : Vector3) (l l2 : List Tile)
    (h : l.map (fun t => t.m_position) = l2.map (fun t => t.m_position)) (i : Nat)
    (st : ℚ × Option Nat) :
    closestScan hitPoint l i st = closestScan hitPoint l2 i st := by
  induction l generalizing l2 i st with
  | nil =>
    cases l2 with
    | nil => rfl
    | cons b l2 => simp at h
  | cons a l ih =>
    cases l2 with
    | nil => simp at h
    | cons b l2 =>
      simp only [List.map_cons, List.cons.injEq] at h
      obtain ⟨hab, hl⟩ := h
      obtain ⟨D, sel⟩ := st
      simp only [closestScan, hab]
      split
      · exact ih l2 hl _ _
      · exact ih l2 hl _ _

theorem map_position_modify (f : Tile → Tile) (hf : ∀ t, (f t).m_position = t.m_position)
    (l : List Tile) (i : Nat) :
    (l.modify f i).map (fun t => t.m_position) = l.map (fun t => t.m_position) := by
  induction l generalizing i with
  | nil => simp
  | cons a l ih =>
    cases i with
    | zero => simp [hf]
    | succ i => simp [ih]

theorem handStep_eq (E : Env) (cur : ℚ) (lookat : Vector3) (tiles : List Tile) (hand : Hand) :
    handStep E cur lookat tiles hand
      = match selectedBy E lookat tiles hand with
        | none => tiles
        | some i => tiles.modify (fun t => touchBy E cur t hand) i := by
  unfold handStep selectedBy
  cases projectToPlane E hand with
  | none => rfl
  | some hit =>
    simp only [influenceAt]
    cases closestTile (hit + lookat) tiles <;> rfl

theorem handStep_positions (E : Env) (cur : ℚ) (lookat : Vector3) (tiles : List Tile)
    (hand : Hand) :
    (handStep E cur lookat tiles hand).map (fun t => t.m_position)
      = tiles.map (fun t => t.m_position) := by
  rw [handStep_eq]
  cases selectedBy E lookat tiles hand with
  | none => rfl
  | some i => exact map_position_modify (fun t => touchBy E cur t hand) (fun t => rfl) tiles i

theorem selectedBy_congr (E : Env) (lookat : Vector3) (l l2 : List Tile)
    (h : l.map (fun t => t.m_position) = l2.map (fun t => t.m_position)) (hand : Hand) :
    selectedBy E lookat l hand = selectedBy E lookat l2 hand := by
  unfold selectedBy closestTile
  cases projectToPlane E hand with
  | none => rfl
  | some hit => simp only [closestScan_congr _ l l2 h]

theorem handsOn_congr (E : Env) (lookat : Vector3) (l l2 : List Tile)
    (h : l.map (fun t => t.m_position) = l2.map (fun t => t.m_position)) (hands : List Hand)
    (j : Nat) : handsOn E lookat l hands j = handsOn E lookat l2 hands j := by
  unfold handsOn
  congr 1
  funext hand
  rw [selectedBy_congr E lookat l l2 h]

/-- After the hand loop, tile `j` is its initial state touched once by each hand that
selects it, in order. -/
theorem foldl_handStep_getElem? (E : Env) (cur : ℚ) (lookat : Vector3) (hands : List Hand)
    (tiles : List Tile) (j : Nat) :
    (hands.foldl (handStep E cur lookat) tiles)[j]?
      = (tiles[j]?).map (fun t => (handsOn E lookat tiles hands j).foldl (touchBy E cur) t) := by
  induction hands generalizing tiles with
  | nil => simp [handsOn]
  | cons h hs ih =>
    rw [List.foldl_cons, ih,
      handsOn_congr E lookat _ tiles (handStep_positions E cur lookat tiles h) hs j]
    rw [handStep_eq]
    cases hsel : selectedBy E lookat tiles h with
    | none =>
      simp only [handsOn, List.filter_cons, hsel]
      simp
    | some i =>
      simp only [List.getElem?_modify, handsOn, List.filter_cons, hsel]
      by_cases hij : i = j
      · subst hij
        cases tiles[i]? <;> simp
      · have : ¬ (some i = some j) := by simpa using hij
        cases tiles[j]? <;> simp [hij]

theorem touchBy_lastTime (E : Env) (cur : ℚ) (t : Tile) (hand : Hand) :
    (touchBy E cur t hand).m_activationSmoother.lastTimeSeconds = cur := by
  simp only [touchBy, touchTile, ExponentialFilter.Update]
  split <;> rfl

theorem foldl_touchBy_lastTime (E : Env) (cur : ℚ) (hs : List Hand) (t : Tile)
    (h : hs ≠ []) :
    (hs.foldl (touchBy E cur) t).m_activationSmoother.lastTimeSeconds = cur := by
  induction hs generalizing t with
  | nil => exact absurd rfl h
  | cons a hs ih =>
    cases hs with
    | nil => exact touchBy_lastTime E cur t a
    | cons b hs => exact ih (touchBy E cur t a) (by simp)

/-- After `applyInfluenceToTiles`, tile `j` is its initial state touched once by each
hand that selects it, then passed through the decay test. -/
theorem applyInfluence_getElem? (E : Env) (cur : ℚ) (hands : List Hand) (view : View)
    (j : Nat) :
    (applyInfluenceToTiles E cur hands view).tiles[j]?
      = (view.tiles[j]?).map (fun t =>
          decayTile E cur ((handsOn E view.lookAt view.tiles hands j).foldl (touchBy E cur) t)) := by
  simp only [applyInfluenceToTiles, List.getElem?_map, foldl_handStep_getElem?, Option.map_map]
  rfl

/-! ## Tile selection -/

theorem influenceAt_none (E : Env) (cur : ℚ) (hitPoint : Vector3) (hand : Hand)
    (tiles : List Tile) (h : closestTile hitPoint tiles = none) :
    influenceAt E cur hitPoint hand tiles = tiles := by
  simp only [influenceAt, h]

theorem influenceAt_some (E : Env) (cur : ℚ) (hitPoint : Vector3) (hand : Hand)
    (tiles : List Tile) (i : Nat) (h : closestTile hitPoint tiles = some i) :
    influenceAt E cur hitPoint hand tiles
      = tiles.modify (fun t => touchBy E cur t hand) i := by
  simp only [influenceAt, h]
  rfl

theorem selectedBy_of_hit (E : Env) (lookat hit : Vector3) (tiles : List Tile) (hand : Hand)
    (h : projectToPlane E hand = some hit) :
    selectedBy E lookat tiles hand = closestTile (hit + lookat) tiles := by
  unfold selectedBy
  rw [h]

theorem decayTile_of_ne (E : Env) (cur : ℚ) (t : Tile)
    (h : t.m_activationSmoother.lastTimeSeconds ≠ cur) :
    decayTile E cur t
      = { t with
          m_activationSmoother := t.m_activationSmoother.Update 0 cur E.ACTIVATION_SMOOTH,
          m_highlightSmoother := t.m_highlightSmoother.Update 0 cur E.ACTIVATION_SMOOTH } := by
  unfold decayTile
  rw [if_pos h]

theorem decayTile_of_eq (E : Env) (cur : ℚ) (t : Tile)
    (h : t.m_activationSmoother.lastTimeSeconds = cur) : decayTile E cur t = t := by
  unfold decayTile
  exact if_neg (not_not.2 h)

/-- C5: for every hit point and tile collection, the scan of `applyInfluenceToTiles`
selects tile `i` exactly when `i` is the first tile, in iteration order, that attains the
least squared distance to the hit point and that distance is strictly below `30^2 = 900`;
it selects no tile exactly when every tile has squared distance at least 900 (as for an
empty collection or a tile at distance exactly 30), and then the hand updates no tile.
In a tick with that one hand, every tile the hand does not select and whose activation
smoother was not stamped with the current time is decayed toward 0. -/
theorem closestTile_first_nearest (E : Env) (cur : ℚ) (hitPoint : Vector3) (hand : Hand)
    (tiles : List Tile) :
    (∀ i, closestTile hitPoint tiles = some i ↔ FirstNearest hitPoint tiles i) ∧
    (closestTile hitPoint tiles = none ↔ ∀ t ∈ tiles, 900 ≤ tileDistSq hitPoint t) ∧
    ((∀ t ∈ tiles, 900 ≤ tileDistSq hitPoint t) →
      influenceAt E cur hitPoint hand tiles = tiles) ∧
    (∀ (lookat hit : Vector3), projectToPlane E hand = some hit → hit + lookat = hitPoint →
      ∀ (j : Nat) (t : Tile), tiles[j]? = some t → closestTile hitPoint tiles ≠ some j →
        t.m_activationSmoother.lastTimeSeconds ≠ cur →
        (applyInfluenceToTiles E cur [hand] ⟨tiles, lookat⟩).tiles[j]?
          = some { t with
              m_activationSmoother := t.m_activationSmoother.Update 0 cur E.ACTIVATION_SMOOTH,
              m_highlightSmoother :=
                t.m_highlightSmoother.Update 0 cur E.ACTIVATION_SMOOTH }) := by
  refine ⟨fun i => closestTile_iff hitPoint tiles i, closestTile_none_iff hitPoint tiles,
    fun hall => influenceAt_none E cur hitPoint hand tiles
      ((closestTile_none_iff hitPoint tiles).2 hall), ?_⟩
  intro lookat hit hproj hhp j t hj hsel hne
  rw [applyInfluence_getElem?]
  have hs : selectedBy E lookat tiles hand ≠ some j := by
    rw [selectedBy_of_hit E lookat hit tiles hand hproj, hhp]
    exact hsel
  simp only [hj, Option.map_some', handsOn, List.filter_cons, List.filter_nil, hs, decide_False,
    Bool.false_eq_true, if_false, List.foldl_nil]
  rw [decayTile_of_ne E cur t hne]

theorem sqrt_2500 : Rat.sqrt 2500 = 50 := by
  have h : Rat.sqrt (50 * 50) = |50| := Rat.sqrt_eq 50
  rw [abs_of_pos (by norm_num)] at h
  rw [← h]
  norm_num

theorem sampleHand_projectToPlane (grab pinch : ℚ) (fingers : List Finger) :
    projectToPlane sampleEnv (sampleHand grab pinch fingers) = some 0 := by
  simp only [projectToPlane, sampleEnv, sampleHand, RayPlaneIntersection, Vector3.normalized,
    Vector3.norm, Vector3.squaredNorm, Vector3.dot, Vector3.UnitZ, Vector3.Zero_eq,
    RAY_PLANE_EPSILON, Vector3.smul_x, Vector3.smul_y, Vector3.smul_z, Vector3.add_x,
    Vector3.add_y, Vector3.add_z, Vector3.sub_x, Vector3.sub_y, Vector3.sub_z, Vector3.zero_x,
    Vector3.zero_y, Vector3.zero_z]
  norm_num [sqrt_2500]
  ext <;> simp

theorem sampleTile_distSq (px a h : ℚ) : tileDistSq 0 (sampleTile px a h) = px * px := by
  simp [tileDistSq, sampleTile, Vector3.squaredNorm, Vector3.dot]

theorem sample_firstNearest :
    FirstNearest 0 [sampleTile 5 0 0, sampleTile 40 0 0] 0 := by
  refine ⟨sampleTile 5 0 0, rfl, by rw [sampleTile_distSq]; norm_num, ?_, ?_⟩
  · intro j u hu
    match j, hu with
    | 0, hu =>
      simp at hu
      subst hu
      exact le_refl _
    | 1, hu =>
      simp at hu
      subst hu
      rw [sampleTile_distSq, sampleTile_distSq]
      norm_num
    | j + 2, hu => simp at hu
  · intro j u hj
    omega

theorem closestTile_first_nearest_witness :
    closestTile 0 [sampleTile 5 0 0, sampleTile 40 0 0] = some 0 ∧
    (applyInfluenceToTiles sampleEnv 1 [sampleHand 0 0 []]
        ⟨[sampleTile 5 0 0, sampleTile 40 0 0], 0⟩).tiles[1]?
      = some { sampleTile 40 0 0 with
          m_activationSmoother :=
            (sampleTile 40 0 0).m_activationSmoother.Update 0 1 sampleEnv.ACTIVATION_SMOOTH,
          m_highlightSmoother :=
            (sampleTile 40 0 0).m_highlightSmoother.Update 0 1 sampleEnv.ACTIVATION_SMOOTH } := by
  have H := closestTile_first_nearest sampleEnv 1 0 (sampleHand 0 0 [])
    [sampleTile 5 0 0, sampleTile 40 0 0]
  have h0 : closestTile 0 [sampleTile 5 0 0, sampleTile 40 0 0] = some 0 :=
    (H.1 0).2 sample_firstNearest
  refine ⟨h0, H.2.2.2 0 0 (sampleHand_projectToPlane 0 0 []) (Vector3.add_zero3 0) 1
    (sampleTile 40 0 0) rfl ?_ ?_⟩
  · rw [h0]
    simp
  · simp [sampleTile]

/-! ## Gating of the activation by the highlight -/

/-- C6: for the tile `i` a hand selects, with state `t` before this hand's update, the
activation smoother is updated toward `SmootherStep(max(grabStrength, pinchStrength))`
when the highlight value of `t` is strictly above `0.95` and toward `0` otherwise (so a
highlight value of `0.95` or less gives target `0` whatever the strengths are), and the
highlight smoother is updated toward `1`; both updates start from the state `t`, so the
gate reads the highlight value from before the update. -/
theorem influenceAt_selected (E : Env) (cur : ℚ) (hitPoint : Vector3) (hand : Hand)
    (tiles : List Tile) (i : Nat) (t : Tile) (hsel : closestTile hitPoint tiles = some i)
    (ht : tiles[i]? = some t) :
    (influenceAt E cur hitPoint hand tiles)[i]?
        = some { t with
            m_activationSmoother :=
              t.m_activationSmoother.Update
                (if t.m_highlightSmoother.value > 95 / 100 then
                  SmootherStep (max hand.grabStrength hand.pinchStrength) else 0)
                cur E.ACTIVATION_SMOOTH,
            m_highlightSmoother := t.m_highlightSmoother.Update 1 cur E.ACTIVATION_SMOOTH }
      ∧ (t.m_highlightSmoother.value ≤ 95 / 100 →
          (influenceAt E cur hitPoint hand tiles)[i]?
            = some { t with
                m_activationSmoother :=
                  t.m_activationSmoother.Update 0 cur E.ACTIVATION_SMOOTH,
                m_highlightSmoother :=
                  t.m_highlightSmoother.Update 1 cur E.ACTIVATION_SMOOTH }) := by
  have key : (influenceAt E cur hitPoint hand tiles)[i]? = some (touchBy E cur t hand) := by
    rw [influenceAt_some E cur hitPoint hand tiles i hsel, List.getElem?_modify_eq, ht]
    rfl
  refine ⟨by rw [key]; rfl, fun hle => ?_⟩
  rw [key]
  simp only [touchBy, touchTile, grabMultiplier, if_neg (not_lt.2 hle)]

theorem sample_closestTile_one (a h : ℚ) : closestTile 0 [sampleTile 5 a h] = some 0 := by
  rw [closestTile_iff]
  refine ⟨sampleTile 5 a h, rfl, by rw [sampleTile_distSq]; norm_num, ?_, ?_⟩
  · intro j u hu
    match j, hu with
    | 0, hu =>
      simp at hu
      subst hu
      exact le_refl _
    | j + 1, hu => simp at hu
  · intro j u hj
    omega

theorem influenceAt_selected_witness :
    closestTile 0 [sampleTile 5 0 (95 / 100)] = some 0 ∧
    (sampleTile 5 0 (95 / 100)).m_highlightSmoother.value ≤ 95 / 100 ∧
    (influenceAt sampleEnv 1 0 (sampleHand 1 0 []) [sampleTile 5 0 (95 / 100)])[0]?
      = some { sampleTile 5 0 (95 / 100) with
          m_activationSmoother :=
            (sampleTile 5 0 (95 / 100)).m_activationSmoother.Update 0 1
              sampleEnv.ACTIVATION_SMOOTH,
          m_highlightSmoother :=
            (sampleTile 5 0 (95 / 100)).m_highlightSmoother.Update 1 1
              sampleEnv.ACTIVATION_SMOOTH } :=
  ⟨sample_closestTile_one 0 (95 / 100), by simp [sampleTile],
    (influenceAt_selected sampleEnv 1 0 (sampleHand 1 0 []) [sampleTile 5 0 (95 / 100)] 0
      (sampleTile 5 0 (95 / 100)) (sample_closestTile_one 0 (95 / 100)) rfl).2
      (by simp [sampleTile])⟩

/-! ## Updates per tile and tick -/

theorem sample_selectedBy (grab pinch a h : ℚ) :
    selectedBy sampleEnv 0 [sampleTile 5 a h] (sampleHand grab pinch []) = some 0 := by
  rw [selectedBy_of_hit sampleEnv 0 0 _ _ (sampleHand_projectToPlane grab pinch []),
    Vector3.add_zero3]
  exact sample_closestTile_one a h

/-- C7, counterexample: with two hands over the same tile (highlight 0, smoothing one
half), one call of `applyInfluenceToTiles` at time 1 updates that tile twice, each
smoother once per hand: the highlight goes from 0 through 1/2 to 3/4, which no single
update toward 1 or toward 0 produces. -/
theorem applyInfluence_two_hands_same_tile :
    (∀ t ∈ [sampleTile 5 0 0],
      t.m_activationSmoother.lastTimeSeconds < 1 ∧ t.m_highlightSmoother.lastTimeSeconds < 1) ∧
    (applyInfluenceToTiles sampleEnv 1 [sampleHand 0 0 [], sampleHand 0 0 []]
        ⟨[sampleTile 5 0 0], 0⟩).tiles[0]?
      = some (touchBy sampleEnv 1 (touchBy sampleEnv 1 (sampleTile 5 0 0) (sampleHand 0 0 []))
          (sampleHand 0 0 [])) ∧
    (touchBy sampleEnv 1 (touchBy sampleEnv 1 (sampleTile 5 0 0) (sampleHand 0 0 []))
        (sampleHand 0 0 [])).m_highlightSmoother.value = 3 / 4 ∧
    ¬ OneUpdateEach sampleEnv 1 [sampleHand 0 0 [], sampleHand 0 0 []] (sampleTile 5 0 0)
        (touchBy sampleEnv 1 (touchBy sampleEnv 1 (sampleTile 5 0 0) (sampleHand 0 0 []))
          (sampleHand 0 0 [])) := by
  have hv : (touchBy sampleEnv 1 (touchBy sampleEnv 1 (sampleTile 5 0 0) (sampleHand 0 0 []))
        (sampleHand 0 0 [])).m_highlightSmoother
      = { value := 3 / 4, lastTimeSeconds := 1, first := false } := by
    simp [touchBy, touchTile, ExponentialFilter.Update, sampleTile, sampleEnv]
    norm_num
  refine ⟨by simp [sampleTile], ?_, by rw [hv], ?_⟩
  · rw [applyInfluence_getElem?]
    simp only [handsOn, List.filter_cons, List.filter_nil, sample_selectedBy, decide_True,
      if_true, List.foldl_cons, List.foldl_nil, List.getElem?_cons_zero, Option.map_some']
    rw [decayTile_of_eq _ _ _ (touchBy_lastTime _ _ _ _)]
  · rintro ⟨_, h1 | h0⟩
    · rw [hv] at h1
      simp [ExponentialFilter.Update, sampleTile, sampleEnv] at h1
      norm_num at h1
    · rw [hv] at h0
      simp [ExponentialFilter.Update, sampleTile, sampleEnv] at h0

/-- C7, amended: after one call of `applyInfluenceToTiles` at time `cur`, a tile whose
activation smoother was not already stamped with `cur` has received, on each of its two
smoothers, one hand-influenced update per hand that selects it and no decay, or, when no
hand selects it, exactly one decay update toward 0.  So each smoother receives exactly
one update whenever at most one hand selects the tile. -/
theorem applyInfluence_updates_per_tile (E : Env) (cur : ℚ) (hands : List Hand) (view : View)
    (j : Nat) (t : Tile) (hj : view.tiles[j]? = some t)
    (hne : t.m_activationSmoother.lastTimeSeconds ≠ cur) :
    (applyInfluenceToTiles E cur hands view).tiles[j]?
        = some (if handsOn E view.lookAt view.tiles hands j = [] then
            { t with
              m_activationSmoother := t.m_activationSmoother.Update 0 cur E.ACTIVATION_SMOOTH,
              m_highlightSmoother := t.m_highlightSmoother.Update 0 cur E.ACTIVATION_SMOOTH }
          else (handsOn E view.lookAt view.tiles hands j).foldl (touchBy E cur) t)
      ∧ ((handsOn E view.lookAt view.tiles hands j).length ≤ 1 →
          ∃ t2, (applyInfluenceToTiles E cur hands view).tiles[j]? = some t2 ∧
            OneUpdateEach E cur hands t t2) := by
  have key : (applyInfluenceToTiles E cur hands view).tiles[j]?
      = some (if handsOn E view.lookAt view.tiles hands j = [] then
          { t with
            m_activationSmoother := t.m_activationSmoother.Update 0 cur E.ACTIVATION_SMOOTH,
            m_highlightSmoother := t.m_highlightSmoother.Update 0 cur E.ACTIVATION_SMOOTH }
        else (handsOn E view.lookAt view.tiles hands j).foldl (touchBy E cur) t) := by
    rw [applyInfluence_getElem?, hj, Option.map_some']
    by_cases hnil : handsOn E view.lookAt view.tiles hands j = []
    · rw [if_pos hnil, hnil, List.foldl_nil, decayTile_of_ne E cur t hne]
    · rw [if_neg hnil, decayTile_of_eq _ _ _ (foldl_touchBy_lastTime E cur _ t hnil)]
  refine ⟨key, fun hlen => ?_⟩
  rw [key]
  refine ⟨_, rfl, ?_⟩
  match hl : handsOn E view.lookAt view.tiles hands j, hlen with
  | [], _ =>
    rw [if_pos rfl]
    exact ⟨⟨0, Or.inl rfl, rfl⟩, Or.inr rfl⟩
  | [h], _ =>
    rw [if_neg (by simp)]
    have hmem : h ∈ hands := by
      have : h ∈ handsOn E view.lookAt view.tiles hands j := by rw [hl]; simp
      exact (List.mem_filter.1 this).1
    refine ⟨?_, Or.inl rfl⟩
    by_cases hg : t.m_highlightSmoother.value > 95 / 100
    · exact ⟨grabMultiplier h, Or.inr ⟨h, hmem, rfl⟩, by
        simp [touchBy, touchTile, hg]⟩
    · exact ⟨0, Or.inl rfl, by simp [touchBy, touchTile, hg]⟩
  | _ :: _ :: _, hlen => simp at hlen

theorem applyInfluence_updates_per_tile_witness :
    ([sampleTile 5 0 0][0]? = some (sampleTile 5 0 0)) ∧
    ((sampleTile 5 0 0).m_activationSmoother.lastTimeSeconds ≠ 1) ∧
    (applyInfluenceToTiles sampleEnv 1 [sampleHand 0 0 [], sampleHand 0 0 []]
        ⟨[sampleTile 5 0 0], 0⟩).tiles[0]?
      = some (if handsOn sampleEnv 0 [sampleTile 5 0 0]
            [sampleHand 0 0 [], sampleHand 0 0 []] 0 = [] then
          { sampleTile 5 0 0 with
            m_activationSmoother :=
              (sampleTile 5 0 0).m_activationSmoother.Update 0 1 sampleEnv.ACTIVATION_SMOOTH,
            m_highlightSmoother :=
              (sampleTile 5 0 0).m_highlightSmoother.Update 0 1 sampleEnv.ACTIVATION_SMOOTH }
        else (handsOn sampleEnv 0 [sampleTile 5 0 0]
            [sampleHand 0 0 [], sampleHand 0 0 []] 0).foldl (touchBy sampleEnv 1)
              (sampleTile 5 0 0)) :=
  ⟨rfl, by simp [sampleTile],
    (applyInfluence_updates_per_tile sampleEnv 1 [sampleHand 0 0 [], sampleHand 0 0 []]
      ⟨[sampleTile 5 0 0], 0⟩ 0 (sampleTile 5 0 0) rfl (by simp [sampleTile])).1⟩

/-! ## The precondition of `UpdateView` -/

theorem UpdateView_none_iff (E : Env) (cur : ℚ) (self : Interaction) (view : View) :
    UpdateView E cur self view = none ↔ cur - self.m_lastViewUpdateTime ≤ 0 := by
  unfold UpdateView
  by_cases h : cur - self.m_lastViewUpdateTime > 0
  · simp only [h, not_true_eq_false, if_false]
    constructor
    · intro hn
      cases hn
    · intro hle
      exact absurd h (not_lt.2 hle)
  · simp only [h, not_false_eq_true, if_true, true_iff]
    exact not_lt.1 h

theorem UpdateView_some_time (E : Env) (cur : ℚ) (self : Interaction) (view : View)
    (r : Interaction × View) (h : UpdateView E cur self view = some r) :
    r.1.m_lastViewUpdateTime = cur := by
  unfold UpdateView at h
  by_cases hd : cur - self.m_lastViewUpdateTime > 0
  · simp only [hd, not_true_eq_false, if_false, Option.some.injEq] at h
    rw [← h]
  · simp only [hd, not_false_eq_true, if_true] at h
    cases h

theorem Update_lastViewUpdateTime (E : Env) (self : Interaction) (frame : Frame) :
    (Update E self frame).m_lastViewUpdateTime = self.m_lastViewUpdateTime := rfl

theorem foldl_Update_lastViewUpdateTime (E : Env) (frames : List Frame) (self : Interaction) :
    (frames.foldl (Update E) self).m_lastViewUpdateTime = self.m_lastViewUpdateTime := by
  induction frames generalizing self with
  | nil => rfl
  | cons f fs ih => rw [List.foldl_cons, ih, Update_lastViewUpdateTime]

/-- C8: `UpdateView` fails its assertion exactly when `currentTime - lastViewUpdateTime`
is at most 0; when it succeeds it records `currentTime` as `lastViewUpdateTime`.  So
after a successful call at time `cur`, a next call of `UpdateView` at a time `t2 ≤ cur`
fails (also with calls of `Update` in between), and on a freshly constructed controller
a first call at a time `cur ≤ 0` fails. -/
theorem UpdateView_precondition (E : Env) (cur : ℚ) (self : Interaction) (view : View) :
    (UpdateView E cur self view = none ↔ cur - self.m_lastViewUpdateTime ≤ 0) ∧
    (∀ r, UpdateView E cur self view = some r → r.1.m_lastViewUpdateTime = cur) ∧
    (∀ (r : Interaction × View) (frames : List Frame) (t2 : ℚ) (view2 : View),
      UpdateView E cur self view = some r → t2 ≤ cur →
        UpdateView E t2 (frames.foldl (Update E) r.1) view2 = none) ∧
    (cur ≤ 0 → UpdateView E cur Interaction.new view = none) := by
  refine ⟨UpdateView_none_iff E cur self view, UpdateView_some_time E cur self view, ?_, ?_⟩
  · intro r frames t2 view2 hr ht
    rw [UpdateView_none_iff, foldl_Update_lastViewUpdateTime,
      UpdateView_some_time E cur self view r hr]
    linarith
  · intro hc
    rw [UpdateView_none_iff]
    have : Interaction.new.m_lastViewUpdateTime = 0 := rfl
    rw [this]
    linarith

theorem sample_UpdateView :
    UpdateView sampleEnv 2 Interaction.new ⟨[], 0⟩
      = some ({ Interaction.new with m_lastViewUpdateTime := 2 }, ⟨[], 0⟩) := by
  have h : (2 : ℚ) - Interaction.new.m_lastViewUpdateTime > 0 := by
    have : Interaction.new.m_lastViewUpdateTime = 0 := rfl
    rw [this]
    norm_num
  unfold UpdateView
  simp only [h, not_true_eq_false, if_false]
  rfl

theorem UpdateView_precondition_witness :
    UpdateView sampleEnv 2 Interaction.new ⟨[], 0⟩
        = some ({ Interaction.new with m_lastViewUpdateTime := 2 }, ⟨[], 0⟩) ∧
      (1 : ℚ) ≤ 2 ∧
      UpdateView sampleEnv 1
        ([Frame.invalid].foldl (Update sampleEnv)
          ({ Interaction.new with m_lastViewUpdateTime := 2 }, (⟨[], 0⟩ : View)).1)
          ⟨[], 0⟩ = none ∧
      UpdateView sampleEnv 0 Interaction.new ⟨[], 0⟩ = none :=
  ⟨sample_UpdateView, by norm_num,
    (UpdateView_precondition sampleEnv 2 Interaction.new ⟨[], 0⟩).2.2.1 _ [Frame.invalid] 1
      ⟨[], 0⟩ sample_UpdateView (by norm_num),
    (UpdateView_precondition sampleEnv 0 Interaction.new ⟨[], 0⟩).2.2.2 (le_refl 0)⟩

/-! ## A hand held open over a highlighted tile -/

theorem applyInfluence_positions (E : Env) (cur : ℚ) (hands : List Hand) (view : View) :
    (applyInfluenceToTiles E cur hands view).tiles.map (fun t => t.m_position)
      = view.tiles.map (fun t => t.m_position) := by
  have hfold : ∀ (hs : List Hand) (tiles : List Tile),
      (hs.foldl (handStep E cur view.lookAt) tiles).map (fun t => t.m_position)
        = tiles.map (fun t => t.m_position) := by
    intro hs
    induction hs with
    | nil => intro tiles; rfl
    | cons h hs ih =>
      intro tiles
      rw [List.foldl_cons, ih, handStep_positions]
  have hdecay : ∀ t : Tile, (decayTile E cur t).m_position = t.m_position := by
    intro t
    unfold decayTile
    split <;> rfl
  simp only [applyInfluenceToTiles, List.map_map]
  rw [← hfold hands view.tiles]
  apply List.map_congr_left
  intro t _
  exact hdecay t

theorem applyInfluence_lookAt (E : Env) (cur : ℚ) (hands : List Hand) (view : View) :
    (applyInfluenceToTiles E cur hands view).lookAt = view.lookAt := rfl

theorem ticks_lookAt (E : Env) (hands : List Hand) (times : List ℚ) (view : View) :
    (ticks E hands times view).lookAt = view.lookAt := by
  induction times generalizing view with
  | nil => rfl
  | cons c cs ih =>
    have h := ih (applyInfluenceToTiles E c hands view)
    rw [applyInfluence_lookAt] at h
    exact h

theorem Hovering_tick (E : Env) (hand : Hand) (i : Nat) (view : View) (a cur : ℚ)
    (hg : hand.grabStrength = 0) (hp : hand.pinchStrength = 0)
    (h : Hovering E hand i view a) :
    Hovering E hand i (applyInfluenceToTiles E cur [hand] view) (E.ACTIVATION_SMOOTH * a) := by
  obtain ⟨hsel, t, ht, hhl, hf1, hf2, ha⟩ := h
  refine ⟨?_, ?_⟩
  · rw [applyInfluence_lookAt,
      selectedBy_congr E view.lookAt _ view.tiles (applyInfluence_positions E cur [hand] view)]
    exact hsel
  · have hon : handsOn E view.lookAt view.tiles [hand] i = [hand] := by
      simp [handsOn, hsel]
    have hgm : grabMultiplier hand = 0 := by
      simp [grabMultiplier, hg, hp, SmootherStep]
    refine ⟨touchBy E cur t hand, ?_, ?_, ?_, ?_, ?_⟩
    · rw [applyInfluence_getElem?, ht, Option.map_some', hon, List.foldl_cons, List.foldl_nil,
        decayTile_of_eq _ _ _ (touchBy_lastTime E cur t hand)]
    · simp only [touchBy, touchTile, ExponentialFilter.Update, hf1, hhl, Bool.false_eq_true,
        if_false, smul_eq_mul]
      ring
    · simp only [touchBy, touchTile, ExponentialFilter.Update, hf1, Bool.false_eq_true,
        if_false]
    · simp only [touchBy, touchTile, ExponentialFilter.Update, hf2, Bool.false_eq_true,
        if_false]
    · have h1 : (1 : ℚ) > 95 / 100 := by norm_num
      simp only [touchBy, touchTile, ExponentialFilter.Update, hf2, hhl, hgm, h1,
        Bool.false_eq_true, if_false, if_true, smul_eq_mul, ha]
      ring

theorem Hovering_ticks (E : Env) (hand : Hand) (i : Nat) (times : List ℚ) (view : View)
    (a : ℚ) (hg : hand.grabStrength = 0) (hp : hand.pinchStrength = 0)
    (h : Hovering E hand i view a) :
    Hovering E hand i (ticks E [hand] times view) (E.ACTIVATION_SMOOTH ^ times.length * a) := by
  induction times generalizing view a with
  | nil => simpa [ticks] using h
  | cons c cs ih =>
    have h2 := ih (applyInfluenceToTiles E c [hand] view) (E.ACTIVATION_SMOOTH * a)
      (Hovering_tick E hand i view a c hg hp h)
    have e : E.ACTIVATION_SMOOTH ^ (c :: cs).length * a
        = E.ACTIVATION_SMOOTH ^ cs.length * (E.ACTIVATION_SMOOTH * a) := by
      rw [List.length_cons, pow_succ]
      ring
    rw [e]
    exact h2

theorem Hovering_activationAt (E : Env) (hand : Hand) (i : Nat) (view : View) (a : ℚ)
    (h : Hovering E hand i view a) : activationAt view i = a := by
  obtain ⟨_, t, ht, _, _, _, ha⟩ := h
  simp only [activationAt, ht, ha]

theorem pow_mul_small (r a ε : ℚ) (h0 : 0 ≤ r) (h1 : r < 1) (hε : 0 < ε) :
    ∃ N : Nat, ∀ n : Nat, N ≤ n → |r ^ n * a| < ε := by
  have hpos : 0 < ε / (|a| + 1) := div_pos hε (by positivity)
  obtain ⟨N, hN⟩ := exists_pow_lt_of_lt_one hpos h1
  refine ⟨N, fun n hn => ?_⟩
  have hle : r ^ n ≤ r ^ N := pow_le_pow_of_le_one h0 (le_of_lt h1) hn
  have hrn : 0 ≤ r ^ n := pow_nonneg h0 n
  rw [abs_mul, abs_of_nonneg hrn]
  have ha : 0 ≤ |a| := abs_nonneg a
  calc r ^ n * |a| ≤ r ^ N * |a| := mul_le_mul_of_nonneg_right hle ha
    _ ≤ r ^ N * (|a| + 1) := by
        apply mul_le_mul_of_nonneg_left _ (pow_nonneg h0 N)
        linarith
    _ < ε / (|a| + 1) * (|a| + 1) := by
        apply mul_lt_mul_of_pos_right hN
        positivity
    _ = ε := by field_simp

/-- C9: one hand with `grabStrength = 0` and `pinchStrength = 0` that selects tile `i`,
whose smoothers have had their first update and whose highlight value is 1.  After any
`n` successive ticks (at any render times) the hand still selects tile `i`, the
highlight value of the tile is still exactly 1 and its activation value is
`ACTIVATION_SMOOTH^n` times the initial one.  For `ACTIVATION_SMOOTH` in `[0,1)` the
absolute activation value does not grow from one tick to the next and falls below every
positive bound after enough ticks. -/
theorem open_hand_hover (E : Env) (hand : Hand) (i : Nat) (view : View) (t : Tile)
    (hg : hand.grabStrength = 0) (hp : hand.pinchStrength = 0)
    (hsel : selectedBy E view.lookAt view.tiles hand = some i)
    (ht : view.tiles[i]? = some t) (hhl : t.m_highlightSmoother.value = 1)
    (hf1 : t.m_highlightSmoother.first = false) (hf2 : t.m_activationSmoother.first = false) :
    (∀ times : List ℚ,
      selectedBy E view.lookAt (ticks E [hand] times view).tiles hand = some i ∧
      ∃ t2, (ticks E [hand] times view).tiles[i]? = some t2 ∧
        t2.m_highlightSmoother.value = 1 ∧
        t2.m_activationSmoother.value
          = E.ACTIVATION_SMOOTH ^ times.length * t.m_activationSmoother.value) ∧
    (0 ≤ E.ACTIVATION_SMOOTH → E.ACTIVATION_SMOOTH < 1 →
      (∀ (times : List ℚ) (cur : ℚ),
        |activationAt (ticks E [hand] (times ++ [cur]) view) i|
          ≤ |activationAt (ticks E [hand] times view) i|) ∧
      (∀ ε : ℚ, 0 < ε → ∃ N : Nat, ∀ times : List ℚ, N ≤ times.length →
        |activationAt (ticks E [hand] times view) i| < ε)) := by
  have h0 : Hovering E hand i view t.m_activationSmoother.value :=
    ⟨hsel, t, ht, hhl, hf1, hf2, rfl⟩
  have hlook : ∀ times : List ℚ, (ticks E [hand] times view).lookAt = view.lookAt :=
    fun times => ticks_lookAt E [hand] times view
  have hall := fun times => Hovering_ticks E hand i times view _ hg hp h0
  have hact := fun times => Hovering_activationAt E hand i _ _ (hall times)
  refine ⟨fun times => ?_, fun hs0 hs1 => ⟨fun times cur => ?_, fun ε hε => ?_⟩⟩
  · obtain ⟨hs, t2, ht2, hh2, _, _, ha2⟩ := hall times
    rw [hlook times] at hs
    exact ⟨hs, t2, ht2, hh2, ha2⟩
  · rw [hact, hact, List.length_append, List.length_singleton, pow_succ, abs_mul, abs_mul,
      abs_mul, abs_of_nonneg hs0, mul_assoc]
    have hn : 0 ≤ |E.ACTIVATION_SMOOTH ^ times.length| := abs_nonneg _
    have ha : 0 ≤ |t.m_activationSmoother.value| := abs_nonneg _
    have hs : E.ACTIVATION_SMOOTH * |t.m_activationSmoother.value|
        ≤ |t.m_activationSmoother.value| := by nlinarith
    exact mul_le_mul_of_nonneg_left hs hn
  · obtain ⟨N, hN⟩ := pow_mul_small E.ACTIVATION_SMOOTH t.m_activationSmoother.value ε hs0 hs1 hε
    refine ⟨N, fun times hlen => ?_⟩
    rw [hact]
    exact hN _ hlen

theorem open_hand_hover_witness :
    (sampleHand 0 0 []).grabStrength = 0 ∧ (sampleHand 0 0 []).pinchStrength = 0 ∧
    selectedBy sampleEnv 0 [sampleTile 5 (1 / 2) 1] (sampleHand 0 0 []) = some 0 ∧
    (∃ t2, (ticks sampleEnv [sampleHand 0 0 []] [1, 2, 3]
          ⟨[sampleTile 5 (1 / 2) 1], 0⟩).tiles[0]? = some t2 ∧
        t2.m_highlightSmoother.value = 1 ∧
        t2.m_activationSmoother.value
          = sampleEnv.ACTIVATION_SMOOTH ^ ([1, 2, 3] : List ℚ).length
            * (sampleTile 5 (1 / 2) 1).m_activationSmoother.value) :=
  ⟨rfl, rfl, sample_selectedBy 0 0 (1 / 2) 1,
    ((open_hand_hover sampleEnv (sampleHand 0 0 []) 0 ⟨[sampleTile 5 (1 / 2) 1], 0⟩
      (sampleTile 5 (1 / 2) 1) rfl rfl (sample_selectedBy 0 0 (1 / 2) 1) rfl rfl rfl rfl).1
        [1, 2, 3]).2⟩

/-! ## Repeated updates with one force -/

theorem Update_value_sub (E : Env) (st : Interaction) (f : Frame)
    (h : st.m_panForce.first = false) :
    (Update E st f).m_panForce.value - scaledForce E f
      = curSmooth (scaledForce E f) st.m_panForce.value
          • (st.m_panForce.value - scaledForce E f) := by
  rw [Update_value E st f h]
  ext <;> simp <;> ring

theorem curSmooth_cases (F P : Vector3) : curSmooth F P = 3 / 4 ∨ curSmooth F P = 19 / 20 := by
  unfold curSmooth SPEED_UP_SMOOTH SLOW_DOWN_SMOOTH
  split
  · left; norm_num
  · right; norm_num

theorem curSmooth_bounds (F P : Vector3) : 0 ≤ curSmooth F P ∧ curSmooth F P ≤ 1 := by
  rcases curSmooth_cases F P with h | h <;> rw [h] <;> constructor <;> norm_num

theorem squaredNorm_smul (c : ℚ) (v : Vector3) :
    (c • v).squaredNorm = c ^ 2 * v.squaredNorm := by
  simp only [Vector3.squaredNorm, Vector3.dot, Vector3.smul_x, Vector3.smul_y, Vector3.smul_z]
  ring

theorem squaredNorm_nonneg (v : Vector3) : 0 ≤ v.squaredNorm := by
  simp only [Vector3.squaredNorm, Vector3.dot]
  nlinarith [mul_self_nonneg v.x, mul_self_nonneg v.y, mul_self_nonneg v.z]

theorem squaredNorm_pos (v : Vector3) (h : v ≠ 0) : 0 < v.squaredNorm := by
  rcases lt_or_eq_of_le (squaredNorm_nonneg v) with hlt | heq
  · exact hlt
  · exfalso
    apply h
    simp only [Vector3.squaredNorm, Vector3.dot] at heq
    have hx : v.x = 0 := by nlinarith [mul_self_nonneg v.x, mul_self_nonneg v.y, mul_self_nonneg v.z]
    have hy : v.y = 0 := by nlinarith [mul_self_nonneg v.x, mul_self_nonneg v.y, mul_self_nonneg v.z]
    have hz : v.z = 0 := by nlinarith [mul_self_nonneg v.x, mul_self_nonneg v.y, mul_self_nonneg v.z]
    ext <;> simp [hx, hy, hz]

theorem foldl_Update_first (E : Env) (frames : List Frame) (self : Interaction)
    (h : self.m_panForce.first = false) :
    (frames.foldl (Update E) self).m_panForce.first = false := by
  induction frames generalizing self with
  | nil => exact h
  | cons f fs ih => exact ih (Update E self f) (Update_first E self f)

theorem foldl_Update_segment (E : Env) (F : Vector3) (frames : List Frame)
    (self : Interaction) (h1 : self.m_panForce.first = false)
    (hF : ∀ f ∈ frames, scaledForce E f = F) :
    ∃ c : ℚ, 0 ≤ c ∧ c ≤ 1 ∧
      (frames.foldl (Update E) self).m_panForce.value = F + c • (self.m_panForce.value - F) := by
  induction frames generalizing self with
  | nil =>
    refine ⟨1, by norm_num, le_refl _, ?_⟩
    ext <;> simp
  | cons f fs ih =>
    obtain ⟨c, hc0, hc1, hc⟩ := ih (Update E self f) (Update_first E self f)
      (fun g hg => hF g (List.mem_cons_of_mem f hg))
    have hf : scaledForce E f = F := hF f (List.mem_cons_self f fs)
    have hsub := Update_value_sub E self f h1
    rw [hf] at hsub
    obtain ⟨hs0, hs1⟩ := curSmooth_bounds F self.m_panForce.value
    refine ⟨c * curSmooth F self.m_panForce.value, mul_nonneg hc0 hs0, ?_, ?_⟩
    · calc c * curSmooth F self.m_panForce.value ≤ 1 * 1 :=
          mul_le_mul hc1 hs1 hs0 (by norm_num)
        _ = 1 := by norm_num
    · rw [List.foldl_cons, hc, hsub]
      ext <;> simp <;> ring

theorem foldl_Update_from_zero (E : Env) (F : Vector3) (hF0 : F ≠ 0) (frames : List Frame)
    (hF : ∀ f ∈ frames, scaledForce E f = F) (self : Interaction)
    (h1 : self.m_panForce.first = false) (k : Nat)
    (hv : self.m_panForce.value = (1 - (3 / 4 : ℚ) ^ k) • F) :
    (frames.foldl (Update E) self).m_panForce.value
      = (1 - (3 / 4 : ℚ) ^ (k + frames.length)) • F := by
  induction frames generalizing self k with
  | nil => simpa using hv
  | cons f fs ih =>
    have hf : scaledForce E f = F := hF f (List.mem_cons_self f fs)
    have hs : curSmooth F self.m_panForce.value = 3 / 4 := by
      have hp : (0 : ℚ) < (3 / 4) ^ k := by positivity
      have hle : ((3 / 4 : ℚ)) ^ k ≤ 1 := pow_le_one₀ (by norm_num) (by norm_num)
      have hFp := squaredNorm_pos F hF0
      unfold curSmooth SPEED_UP_SMOOTH
      rw [hv, squaredNorm_smul, if_pos]
      · norm_num
      · have : (1 - (3 / 4 : ℚ) ^ k) ^ 2 < 1 := by nlinarith
        calc (1 - (3 / 4 : ℚ) ^ k) ^ 2 * F.squaredNorm < 1 * F.squaredNorm :=
              mul_lt_mul_of_pos_right this hFp
          _ = F.squaredNorm := one_mul _
    rw [List.foldl_cons, ih (fun g hg => hF g (List.mem_cons_of_mem f hg)) (Update E self f)
      (Update_first E self f) (k + 1)]
    · congr 2
      rw [List.length_cons]
      ring
    · rw [Update_value E self f h1, hf, hs, hv]
      ext <;> simp <;> ring

/-- C10: a sequence of `Update` calls whose frames all yield the same scaled force `F`,
from a state whose pan smoother has had its first update (as every state has from the
constructor on) and holds `P0`.  The pan value after the calls is `F + c (P0 - F)` for a
`c` in `[0,1]`: it lies on the segment between `P0` and `F` and does not overshoot `F`.
Each single call multiplies the offset from `F` by the smoothing factor (`0.75` or
`0.95`), so the squared distance to `F` does not grow.  From the constructed state
(`P0 = 0`) with `F ≠ 0` the factor is `0.75` at every step and the value after `n` calls
is `(1 - 0.75^n) F`. -/
theorem repeated_Update_converges (E : Env) (F : Vector3) (frames : List Frame)
    (self : Interaction) (h1 : self.m_panForce.first = false)
    (hF : ∀ f ∈ frames, scaledForce E f = F) :
    (∃ c : ℚ, 0 ≤ c ∧ c ≤ 1 ∧
      (frames.foldl (Update E) self).m_panForce.value
        = F + c • (self.m_panForce.value - F)) ∧
    (∀ (st : Interaction) (f : Frame), st.m_panForce.first = false → scaledForce E f = F →
      ∃ s : ℚ, (s = 75 / 100 ∨ s = 95 / 100) ∧
        (Update E st f).m_panForce.value - F = s • (st.m_panForce.value - F) ∧
        ((Update E st f).m_panForce.value - F).squaredNorm
          ≤ (st.m_panForce.value - F).squaredNorm) ∧
    (F ≠ 0 →
      (frames.foldl (Update E) Interaction.new).m_panForce.value
          = (1 - (75 / 100 : ℚ) ^ frames.length) • F ∧
        ∀ k : Nat,
          curSmooth F ((frames.take k).foldl (Update E) Interaction.new).m_panForce.value
            = 75 / 100) := by
  refine ⟨foldl_Update_segment E F frames self h1 hF, ?_, ?_⟩
  · intro st f hst hf
    have hsub := Update_value_sub E st f hst
    rw [hf] at hsub
    obtain ⟨hs0, hs1⟩ := curSmooth_bounds F st.m_panForce.value
    refine ⟨curSmooth F st.m_panForce.value, ?_, hsub, ?_⟩
    · rcases curSmooth_cases F st.m_panForce.value with h | h <;> rw [h]
      · left; norm_num
      · right; norm_num
    · rw [hsub, squaredNorm_smul]
      have hn := squaredNorm_nonneg (st.m_panForce.value - F)
      have : curSmooth F st.m_panForce.value ^ 2 ≤ 1 := by nlinarith
      nlinarith
  · intro hF0
    have hnew : Interaction.new.m_panForce.value = (1 - (3 / 4 : ℚ) ^ 0) • F := by
      rw [new_value]
      ext <;> simp
    have hval : ∀ fs : List Frame, (∀ f ∈ fs, scaledForce E f = F) →
        (fs.foldl (Update E) Interaction.new).m_panForce.value
          = (1 - (3 / 4 : ℚ) ^ fs.length) • F := by
      intro fs hfs
      have := foldl_Update_from_zero E F hF0 fs hfs Interaction.new new_first 0 hnew
      rwa [Nat.zero_add] at this
    have e : (75 / 100 : ℚ) = 3 / 4 := by norm_num
    refine ⟨by rw [e]; exact hval frames hF, fun k => ?_⟩
    rw [hval (frames.take k) (fun f hf => hF f (List.mem_of_mem_take hf))]
    have hp : (0 : ℚ) < (3 / 4) ^ (frames.take k).length := by positivity
    have hle : ((3 / 4 : ℚ)) ^ (frames.take k).length ≤ 1 :=
      pow_le_one₀ (by norm_num) (by norm_num)
    have hFp := squaredNorm_pos F hF0
    unfold curSmooth SPEED_UP_SMOOTH
    rw [squaredNorm_smul, if_pos]
    have : (1 - (3 / 4 : ℚ) ^ (frames.take k).length) ^ 2 < 1 := by nlinarith
    calc (1 - (3 / 4 : ℚ) ^ (frames.take k).length) ^ 2 * F.squaredNorm < 1 * F.squaredNorm :=
          mul_lt_mul_of_pos_right this hFp
      _ = F.squaredNorm := one_mul _

theorem sqrt_4 : Rat.sqrt 4 = 2 := by
  have h : Rat.sqrt (2 * 2) = |2| := Rat.sqrt_eq 2
  rw [abs_of_pos (by norm_num)] at h
  rw [← h]
  norm_num

theorem sample_scaledForce (ts : Int) :
    scaledForce sampleEnv ⟨true, ts, [sampleHand 0 0 [sampleFinger true]]⟩
      = ⟨0, 0, -1 / 5⟩ := by
  simp only [scaledForce, List.map_cons, List.map_nil, List.sum_cons, List.sum_nil,
    forceFromHand_sum_contrib, sampleHand, sampleFinger, List.filter_cons, List.filter_nil,
    if_true, fingerContribution, Vector3.normalized, Vector3.norm, Vector3.squaredNorm,
    Vector3.dot, sampleEnv, SmootherStep, FORCE_POSITION_SCALE]
  norm_num [sqrt_4]
  ext <;> simp
  norm_num

theorem repeated_Update_converges_witness :
    Interaction.new.m_panForce.first = false ∧
    (∀ f ∈ [(⟨true, 1000, [sampleHand 0 0 [sampleFinger true]]⟩ : Frame),
        ⟨true, 2000, [sampleHand 0 0 [sampleFinger true]]⟩],
      scaledForce sampleEnv f = ⟨0, 0, -1 / 5⟩) ∧
    ((⟨0, 0, -1 / 5⟩ : Vector3) ≠ 0) ∧
    ([(⟨true, 1000, [sampleHand 0 0 [sampleFinger true]]⟩ : Frame),
        ⟨true, 2000, [sampleHand 0 0 [sampleFinger true]]⟩].foldl
          (Update sampleEnv) Interaction.new).m_panForce.value
      = (1 - (75 / 100 : ℚ) ^ ([(⟨true, 1000, [sampleHand 0 0 [sampleFinger true]]⟩ : Frame),
        ⟨true, 2000, [sampleHand 0 0 [sampleFinger true]]⟩]).length)
          • (⟨0, 0, -1 / 5⟩ : Vector3) := by
  have hF : ∀ f ∈ [(⟨true, 1000, [sampleHand 0 0 [sampleFinger true]]⟩ : Frame),
        ⟨true, 2000, [sampleHand 0 0 [sampleFinger true]]⟩],
      scaledForce sampleEnv f = ⟨0, 0, -1 / 5⟩ := by
    intro f hf
    simp only [List.mem_cons, List.mem_singleton, List.not_mem_nil, or_false] at hf
    rcases hf with rfl | rfl <;> exact sample_scaledForce _
  have hne : (⟨0, 0, -1 / 5⟩ : Vector3) ≠ 0 := by
    intro h
    have hz := congrArg Vector3.z h
    norm_num at hz
  exact ⟨rfl, hF, hne,
    ((repeated_Update_converges sampleEnv ⟨0, 0, -1 / 5⟩ _ Interaction.new rfl hF).2.2 hne).1⟩

/-! ## What a view tick leaves alone -/

theorem foldl_proxyStep_positions (E : Env) (hext : ExternalsKeepTiles E) (cur : ℚ)
    (hands : List Hand) (view : View) :
    (hands.foldl (proxyStep E cur) view).tiles.map (fun t => t.m_position)
      = view.tiles.map (fun t => t.m_position) := by
  induction hands generalizing view with
  | nil => rfl
  | cons h hs ih =>
    rw [List.foldl_cons, ih]
    unfold proxyStep
    split
    · exact hext.2.1 view h cur
    · split
      · exact hext.2.2 view h cur
      · rfl

theorem UpdateView_some_view (E : Env) (cur : ℚ) (self : Interaction) (view : View)
    (r : Interaction × View) (h : UpdateView E cur self view = some r) :
    r.2 = applyInfluenceToTiles E cur self.m_prevFrame.hands
      (self.m_prevFrame.hands.foldl (proxyStep E cur)
        (E.ApplyVelocity view self.m_panForce.value cur (cur - self.m_lastViewUpdateTime))) := by
  unfold UpdateView at h
  by_cases hd : cur - self.m_lastViewUpdateTime > 0
  · simp only [hd, not_true_eq_false, if_false, Option.some.injEq] at h
    rw [← h]
  · simp only [hd, not_false_eq_true, if_true] at h
    cases h

/-- C11: for every view and hand list, `applyInfluenceToTiles` leaves the number of
tiles, their order and the position of every tile unchanged (and the look-at point of
the view): tile `j` afterwards is tile `j` before with, at most, other activation and
highlight smoothers.  The same holds for the tiles of the view that `UpdateView`
returns, as long as the members of `View` it calls outside this class leave the tile
positions alone. -/
theorem applyInfluence_frame (E : Env) (cur : ℚ) (hands : List Hand) (view : View) :
    (applyInfluenceToTiles E cur hands view).tiles.length = view.tiles.length ∧
    (applyInfluenceToTiles E cur hands view).tiles.map (fun t => t.m_position)
      = view.tiles.map (fun t => t.m_position) ∧
    (applyInfluenceToTiles E cur hands view).lookAt = view.lookAt ∧
    (∀ (j : Nat) (t : Tile), view.tiles[j]? = some t →
      ∃ a h : ExponentialFilter ℚ,
        (applyInfluenceToTiles E cur hands view).tiles[j]?
          = some { t with m_activationSmoother := a, m_highlightSmoother := h }) ∧
    (ExternalsKeepTiles E → ∀ (self : Interaction) (r : Interaction × View),
      UpdateView E cur self view = some r →
        r.2.tiles.map (fun t => t.m_position) = view.tiles.map (fun t => t.m_position)) := by
  have hpos := applyInfluence_positions E cur hands view
  refine ⟨?_, hpos, rfl, ?_, ?_⟩
  · have := congrArg List.length hpos
    simpa using this
  · intro j t hj
    have hj2 : ((applyInfluenceToTiles E cur hands view).tiles.map (fun t => t.m_position))[j]?
        = some t.m_position := by
      rw [hpos, List.getElem?_map, hj]
      rfl
    rw [List.getElem?_map] at hj2
    cases hr : (applyInfluenceToTiles E cur hands view).tiles[j]? with
    | none => rw [hr] at hj2; cases hj2
    | some t2 =>
      rw [hr] at hj2
      simp only [Option.map_some', Option.some.injEq] at hj2
      refine ⟨t2.m_activationSmoother, t2.m_highlightSmoother, ?_⟩
      rw [← hj2]
  · intro hext self r hr
    rw [UpdateView_some_view E cur self view r hr, applyInfluence_positions,
      foldl_proxyStep_positions E hext]
    exact hext.1 _ _ _ _

theorem sampleEnv_keeps_tiles : ExternalsKeepTiles sampleEnv :=
  ⟨fun _ _ _ _ => rfl, fun _ _ _ => rfl, fun _ _ _ => rfl⟩

theorem sample_UpdateView_tiles (view : View) :
    UpdateView sampleEnv 2 Interaction.new view
      = some ({ Interaction.new with m_lastViewUpdateTime := 2 },
          applyInfluenceToTiles sampleEnv 2 [] view) := by
  have h : (2 : ℚ) - Interaction.new.m_lastViewUpdateTime > 0 := by
    have : Interaction.new.m_lastViewUpdateTime = 0 := rfl
    rw [this]
    norm_num
  unfold UpdateView
  simp only [h, not_true_eq_false, if_false]
  rfl

theorem applyInfluence_frame_witness :
    ExternalsKeepTiles sampleEnv ∧
    UpdateView sampleEnv 2 Interaction.new ⟨[sampleTile 5 0 0, sampleTile 40 0 0], 0⟩
      = some ({ Interaction.new with m_lastViewUpdateTime := 2 },
          applyInfluenceToTiles sampleEnv 2 [] ⟨[sampleTile 5 0 0, sampleTile 40 0 0], 0⟩) ∧
    (applyInfluenceToTiles sampleEnv 2 []
        ⟨[sampleTile 5 0 0, sampleTile 40 0 0], 0⟩).tiles.map (fun t => t.m_position)
      = [sampleTile 5 0 0, sampleTile 40 0 0].map (fun t => t.m_position) :=
  ⟨sampleEnv_keeps_tiles, sample_UpdateView_tiles _,
    (applyInfluence_frame sampleEnv 2 [] ⟨[sampleTile 5 0 0, sampleTile 40 0 0], 0⟩).2.2.2.2
      sampleEnv_keeps_tiles Interaction.new _ (sample_UpdateView_tiles _)⟩

/-! ## Fingers at rest -/

/-- In exact arithmetic the term of a finger whose tip velocity is the zero vector is the
zero vector, whatever the normalization of the zero vector returns: the term is a scalar
multiple of the velocity.  (The code tests nothing before it normalizes the velocity;
this says nothing about what floating-point arithmetic yields there.) -/
theorem fingerContribution_at_rest (E : Env) (hand : Hand) (finger : Finger)
    (h : finger.tipVelocity = 0) : fingerContribution E hand finger = 0 := by
  unfold fingerContribution
  rw [h]
  ext <;> simp

/-! ## Hands whose projection misses the plane -/

theorem handStep_of_miss (E : Env) (cur : ℚ) (lookat : Vector3) (tiles : List Tile)
    (hand : Hand) (h : projectToPlane E hand = none) :
    handStep E cur lookat tiles hand = tiles := by
  unfold handStep
  rw [h]

theorem foldl_handStep_of_miss (E : Env) (cur : ℚ) (lookat : Vector3) (hands : List Hand)
    (tiles : List Tile) (h : ∀ g ∈ hands, projectToPlane E g = none) :
    hands.foldl (handStep E cur lookat) tiles = tiles := by
  induction hands generalizing tiles with
  | nil => rfl
  | cons g gs ih =>
    rw [List.foldl_cons, handStep_of_miss E cur lookat tiles g (h g (List.mem_cons_self g gs))]
    exact ih tiles (fun k hk => h k (List.mem_cons_of_mem g hk))

/-- C13: a hand for which `projectToPlane` reports no intersection is skipped without
effect: `applyInfluenceToTiles` on a hand list that contains it returns the same view as
on the list with that hand removed.  With only such hands the result is the decay loop
alone: every tile whose activation smoother is not stamped with the current time has
both smoothers updated toward 0. -/
theorem applyInfluence_skips_miss (E : Env) (cur : ℚ) (view : View) (before after : List Hand)
    (hand : Hand) (hmiss : projectToPlane E hand = none) :
    applyInfluenceToTiles E cur (before ++ hand :: after) view
        = applyInfluenceToTiles E cur (before ++ after) view ∧
    (∀ hands : List Hand, (∀ g ∈ hands, projectToPlane E g = none) →
      (applyInfluenceToTiles E cur hands view).tiles = view.tiles.map (decayTile E cur) ∧
      ∀ (j : Nat) (t : Tile), view.tiles[j]? = some t →
        t.m_activationSmoother.lastTimeSeconds ≠ cur →
        (applyInfluenceToTiles E cur hands view).tiles[j]?
          = some { t with
              m_activationSmoother := t.m_activationSmoother.Update 0 cur E.ACTIVATION_SMOOTH,
              m_highlightSmoother :=
                t.m_highlightSmoother.Update 0 cur E.ACTIVATION_SMOOTH }) := by
  constructor
  · simp only [applyInfluenceToTiles, List.foldl_append, List.foldl_cons,
      handStep_of_miss E cur view.lookAt _ hand hmiss]
  · intro hands hall
    have ht : (applyInfluenceToTiles E cur hands view).tiles
        = view.tiles.map (decayTile E cur) := by
      simp only [applyInfluenceToTiles, foldl_handStep_of_miss E cur view.lookAt hands _ hall]
    refine ⟨ht, fun j t hj hne => ?_⟩
    rw [ht, List.getElem?_map, hj, Option.map_some', decayTile_of_ne E cur t hne]

theorem awayHand_projectToPlane : projectToPlane sampleEnv awayHand = none := by
  simp only [projectToPlane, sampleEnv, awayHand, sampleHand, RayPlaneIntersection,
    Vector3.normalized, Vector3.norm, Vector3.squaredNorm, Vector3.dot, Vector3.UnitZ,
    Vector3.Zero_eq, RAY_PLANE_EPSILON, Vector3.smul_x, Vector3.smul_y, Vector3.smul_z,
    Vector3.add_x, Vector3.add_y, Vector3.add_z, Vector3.sub_x, Vector3.sub_y, Vector3.sub_z,
    Vector3.zero_x, Vector3.zero_y, Vector3.zero_z]
  norm_num [sqrt_2500]

theorem applyInfluence_skips_miss_witness :
    projectToPlane sampleEnv awayHand = none ∧
    applyInfluenceToTiles sampleEnv 1 ([sampleHand 0 0 []] ++ awayHand :: [])
        ⟨[sampleTile 5 0 0], 0⟩
      = applyInfluenceToTiles sampleEnv 1 ([sampleHand 0 0 []] ++ [])
        ⟨[sampleTile 5 0 0], 0⟩ :=
  ⟨awayHand_projectToPlane,
    (applyInfluence_skips_miss sampleEnv 1 ⟨[sampleTile 5 0 0], 0⟩ [sampleHand 0 0 []] []
      awayHand awayHand_projectToPlane).1⟩

/-! ## The unused delta time of `Update` -/

/-- C14: the inter-frame delta time of `Update` is dead.  Two controller states that
agree on the pan smoother, whatever their retained previous frames are (valid or not,
any timestamp), get from `Update` on the same frame the same pan smoother (value and
timestamp) and the same retained frame, which is the frame passed in; and `Update`
leaves `lastViewUpdateTime` unchanged. -/
theorem Update_ignores_prevFrame (E : Env) (s1 s2 : Interaction) (frame : Frame)
    (h : s1.m_panForce = s2.m_panForce) :
    (Update E s1 frame).m_panForce = (Update E s2 frame).m_panForce ∧
    (Update E s1 frame).m_panForce.value = (Update E s2 frame).m_panForce.value ∧
    (Update E s1 frame).m_panForce.lastTimeSeconds
      = (Update E s2 frame).m_panForce.lastTimeSeconds ∧
    (Update E s1 frame).m_prevFrame = frame ∧ (Update E s2 frame).m_prevFrame = frame ∧
    (Update E s1 frame).m_lastViewUpdateTime = s1.m_lastViewUpdateTime ∧
    (Update E s2 frame).m_lastViewUpdateTime = s2.m_lastViewUpdateTime := by
  have hp : (Update E s1 frame).m_panForce = (Update E s2 frame).m_panForce := by
    rw [Update_panForce, Update_panForce, h]
  exact ⟨hp, by rw [hp], by rw [hp], rfl, rfl, rfl, rfl⟩

theorem Update_ignores_prevFrame_witness :
    Interaction.new.m_panForce
        = ({ Interaction.new with m_prevFrame := ⟨true, 500, [awayHand]⟩ } : Interaction).m_panForce ∧
    (Update sampleEnv Interaction.new ⟨true, 1000, [sampleHand 0 0 [sampleFinger true]]⟩).m_panForce
      = (Update sampleEnv { Interaction.new with m_prevFrame := ⟨true, 500, [awayHand]⟩ }
          ⟨true, 1000, [sampleHand 0 0 [sampleFinger true]]⟩).m_panForce :=
  ⟨rfl, (Update_ignores_prevFrame sampleEnv Interaction.new
    { Interaction.new with m_prevFrame := ⟨true, 500, [awayHand]⟩ }
    ⟨true, 1000, [sampleHand 0 0 [sampleFinger true]]⟩ rfl).1⟩

/-! ## The projection of a hand onto the interaction plane -/

theorem handStep_of_hit (E : Env) (cur : ℚ) (lookat hit : Vector3) (tiles : List Tile)
    (hand : Hand) (h : projectToPlane E hand = some hit) :
    handStep E cur lookat tiles hand = influenceAt E cur (hit + lookat) hand tiles := by
  unfold handStep
  rw [h]

/-- C15: when `projectToPlane` succeeds for a hand (with `RayPlaneIntersection` as in the
specification, and a square root that is not negative), the hit point has z-coordinate
0, so it lies on the plane through the origin with normal `UnitZ`, and it is the camera
origin `(0, 0, CAM_DISTANCE_FROM_PLANE)` plus a non-negative multiple of the vector from
the camera origin to the palm position offset by `LEAP_OFFSET`.  The hand loop of
`applyInfluenceToTiles` works from that hit point moved by the look-at point: the tile
the hand selects is the first nearest tile to `hit + lookat`. -/
theorem projectToPlane_hit (E : Env) (hand : Hand) (hit : Vector3)
    (h : projectToPlane E hand = some hit)
    (hsqrt : 0 ≤ E.sqrt
      ((hand.palmPosition + E.LEAP_OFFSET
        - (⟨0, 0, E.CAM_DISTANCE_FROM_PLANE⟩ : Vector3)).squaredNorm)) :
    hit.z = 0 ∧ (hit - Vector3.Zero).dot Vector3.UnitZ = 0 ∧
    (∃ s : ℚ, 0 ≤ s ∧
      hit = (⟨0, 0, E.CAM_DISTANCE_FROM_PLANE⟩ : Vector3)
        + s • (hand.palmPosition + E.LEAP_OFFSET
            - (⟨0, 0, E.CAM_DISTANCE_FROM_PLANE⟩ : Vector3))) ∧
    (∀ (cur : ℚ) (lookat : Vector3) (tiles : List Tile),
      handStep E cur lookat tiles hand = influenceAt E cur (hit + lookat) hand tiles) ∧
    (∀ (lookat : Vector3) (tiles : List Tile) (i : Nat),
      selectedBy E lookat tiles hand = some i ↔ FirstNearest (hit + lookat) tiles i) := by
  have ho : E.CAM_DISTANCE_FROM_PLANE • Vector3.UnitZ
      = (⟨0, 0, E.CAM_DISTANCE_FROM_PLANE⟩ : Vector3) := by
    ext <;> simp [Vector3.UnitZ]
  have hgeo : hit.z = 0 ∧ ∃ s : ℚ, 0 ≤ s ∧
      hit = (⟨0, 0, E.CAM_DISTANCE_FROM_PLANE⟩ : Vector3)
        + s • (hand.palmPosition + E.LEAP_OFFSET
            - (⟨0, 0, E.CAM_DISTANCE_FROM_PLANE⟩ : Vector3)) := by
    simp only [projectToPlane, RayPlaneIntersection, ho] at h
    generalize hand.palmPosition + E.LEAP_OFFSET
      - (⟨0, 0, E.CAM_DISTANCE_FROM_PLANE⟩ : Vector3) = d at h hsqrt ⊢
    simp only [Vector3.normalized, Vector3.norm] at h
    generalize E.sqrt d.squaredNorm = n at h hsqrt
    split_ifs at h with h1 h2
    simp only [Option.some.injEq] at h
    have hden : (⟨d.x / n, d.y / n, d.z / n⟩ : Vector3).dot Vector3.UnitZ = d.z / n := by
      simp [Vector3.dot, Vector3.UnitZ]
    have hnum : (Vector3.Zero - (⟨0, 0, E.CAM_DISTANCE_FROM_PLANE⟩ : Vector3)).dot Vector3.UnitZ
        = -E.CAM_DISTANCE_FROM_PLANE := by
      simp [Vector3.dot, Vector3.UnitZ]
    rw [hden] at h1 h2 h
    rw [hnum] at h2 h
    have hne : d.z / n ≠ 0 := by
      intro h0
      apply h1
      rw [h0, abs_zero]
      norm_num [RAY_PLANE_EPSILON]
    have ht : 0 ≤ -E.CAM_DISTANCE_FROM_PLANE / (d.z / n) := not_lt.1 h2
    constructor
    · rw [← h]
      simp only [Vector3.add_z, Vector3.smul_z]
      rw [div_mul_cancel₀ _ hne]
      ring
    · refine ⟨-E.CAM_DISTANCE_FROM_PLANE / (d.z / n) / n, div_nonneg ht hsqrt, ?_⟩
      rw [← h]
      ext <;> simp <;> ring
  refine ⟨hgeo.1, ?_, hgeo.2, fun cur lookat tiles => handStep_of_hit E cur lookat hit tiles hand h,
    fun lookat tiles i => ?_⟩
  · simp [Vector3.dot, Vector3.UnitZ, hgeo.1]
  · rw [selectedBy_of_hit E lookat hit tiles hand h]
    exact closestTile_iff (hit + lookat) tiles i

theorem projectToPlane_hit_witness :
    projectToPlane sampleEnv (sampleHand 0 0 []) = some 0 ∧
    (0 : Vector3).z = 0 ∧
    (∃ s : ℚ, 0 ≤ s ∧
      (0 : Vector3) = (⟨0, 0, sampleEnv.CAM_DISTANCE_FROM_PLANE⟩ : Vector3)
        + s • ((sampleHand 0 0 []).palmPosition + sampleEnv.LEAP_OFFSET
            - (⟨0, 0, sampleEnv.CAM_DISTANCE_FROM_PLANE⟩ : Vector3))) :=
  ⟨sampleHand_projectToPlane 0 0 [],
    (projectToPlane_hit sampleEnv (sampleHand 0 0 []) 0 (sampleHand_projectToPlane 0 0 [])
      (Rat.sqrt_nonneg _)).1,
    (projectToPlane_hit sampleEnv (sampleHand 0 0 []) 0 (sampleHand_projectToPlane 0 0 [])
      (Rat.sqrt_nonneg _)).2.2.1⟩

/-! ## The first update after construction -/

theorem curSmooth_zero_right (F : Vector3) (hF : F ≠ 0) : curSmooth F 0 = 3 / 4 := by
  have hp := squaredNorm_pos F hF
  have h0 : (0 : Vector3).squaredNorm = 0 := by simp [Vector3.squaredNorm, Vector3.dot]
  unfold curSmooth SPEED_UP_SMOOTH
  rw [h0, if_pos hp]
  norm_num

theorem curSmooth_zero_left (P : Vector3) : curSmooth 0 P = 19 / 20 := by
  have hp := squaredNorm_nonneg P
  have h0 : (0 : Vector3).squaredNorm = 0 := by simp [Vector3.squaredNorm, Vector3.dot]
  unfold curSmooth SLOW_DOWN_SMOOTH
  rw [h0, if_neg (not_lt.2 hp)]
  norm_num

/-- C16: the constructor consumes the first, unsmoothed update of the pan smoother: a
freshly constructed controller has pan value zero with timestamp 0, no first update
pending, and `lastViewUpdateTime` 0.  So the first `Update` blends the force of its frame
with zero: for a scaled force `F ≠ 0` the pan value becomes `0.25 F` (which is not `F`),
and for `F = 0` it stays zero. -/
theorem first_Update_blends (E : Env) (frame : Frame) :
    (ExponentialFilter.fresh : ExponentialFilter Vector3).first = true ∧
    Interaction.new.m_panForce.first = false ∧
    Interaction.new.m_panForce.value = Vector3.Zero ∧
    Interaction.new.m_panForce.lastTimeSeconds = 0 ∧
    Interaction.new.m_lastViewUpdateTime = 0 ∧
    (scaledForce E frame ≠ 0 →
      (Update E Interaction.new frame).m_panForce.value = (25 / 100 : ℚ) • scaledForce E frame ∧
      (Update E Interaction.new frame).m_panForce.value ≠ scaledForce E frame) ∧
    (scaledForce E frame = 0 →
      (Update E Interaction.new frame).m_panForce.value = Vector3.Zero) := by
  refine ⟨rfl, rfl, rfl, rfl, rfl, fun hF => ?_, fun hF => ?_⟩
  · have hv : (Update E Interaction.new frame).m_panForce.value
        = (25 / 100 : ℚ) • scaledForce E frame := by
      rw [Update_value E Interaction.new frame new_first, new_value, curSmooth_zero_right _ hF]
      ext <;> simp only [Vector3.add_x, Vector3.add_y, Vector3.add_z, Vector3.smul_x,
        Vector3.smul_y, Vector3.smul_z, Vector3.zero_x, Vector3.zero_y, Vector3.zero_z] <;> ring
    refine ⟨hv, fun heq => hF ?_⟩
    rw [hv] at heq
    have hx := congrArg Vector3.x heq
    have hy := congrArg Vector3.y heq
    have hz := congrArg Vector3.z heq
    simp only [Vector3.smul_x, Vector3.smul_y, Vector3.smul_z] at hx hy hz
    ext
    · simp only [Vector3.zero_x]; linarith
    · simp only [Vector3.zero_y]; linarith
    · simp only [Vector3.zero_z]; linarith
  · rw [Update_value E Interaction.new frame new_first, new_value, hF]
    ext <;> simp

theorem first_Update_blends_witness :
    scaledForce sampleEnv ⟨true, 1000, [sampleHand 0 0 [sampleFinger true]]⟩ ≠ 0 ∧
    (Update sampleEnv Interaction.new
        ⟨true, 1000, [sampleHand 0 0 [sampleFinger true]]⟩).m_panForce.value
      = (25 / 100 : ℚ) • scaledForce sampleEnv ⟨true, 1000, [sampleHand 0 0 [sampleFinger true]]⟩ := by
  have hne : scaledForce sampleEnv ⟨true, 1000, [sampleHand 0 0 [sampleFinger true]]⟩ ≠ 0 := by
    rw [sample_scaledForce]
    intro h
    have hz := congrArg Vector3.z h
    norm_num at hz
  exact ⟨hne, ((first_Update_blends sampleEnv
    ⟨true, 1000, [sampleHand 0 0 [sampleFinger true]]⟩).2.2.2.2.2.1 hne).1⟩

/-! ## A bound on the pan value -/

theorem squaredNorm_blend (s : ℚ) (P F : Vector3) :
    (s • P + (1 - s) • F).squaredNorm
      = s * P.squaredNorm + (1 - s) * F.squaredNorm - s * (1 - s) * (P - F).squaredNorm := by
  simp only [Vector3.squaredNorm, Vector3.dot, Vector3.add_x, Vector3.add_y, Vector3.add_z,
    Vector3.smul_x, Vector3.smul_y, Vector3.smul_z, Vector3.sub_x, Vector3.sub_y, Vector3.sub_z]
  ring

theorem squaredNorm_blend_le (s b : ℚ) (P F : Vector3) (hs0 : 0 ≤ s) (hs1 : s ≤ 1)
    (hP : P.squaredNorm ≤ b) (hF : F.squaredNorm ≤ b) :
    (s • P + (1 - s) • F).squaredNorm ≤ b := by
  rw [squaredNorm_blend]
  have hd := squaredNorm_nonneg (P - F)
  have h1 : 0 ≤ s * (1 - s) * (P - F).squaredNorm :=
    mul_nonneg (mul_nonneg hs0 (by linarith)) hd
  have h2 : s * P.squaredNorm ≤ s * b := mul_le_mul_of_nonneg_left hP hs0
  have h3 : (1 - s) * F.squaredNorm ≤ (1 - s) * b :=
    mul_le_mul_of_nonneg_left hF (by linarith)
  nlinarith

theorem Update_squaredNorm_le (E : Env) (self : Interaction) (frame : Frame) (b : ℚ)
    (h1 : self.m_panForce.first = false) (hP : self.m_panForce.value.squaredNorm ≤ b)
    (hF : (scaledForce E frame).squaredNorm ≤ b) :
    (Update E self frame).m_panForce.value.squaredNorm ≤ b := by
  rw [Update_value E self frame h1]
  obtain ⟨hs0, hs1⟩ := curSmooth_bounds (scaledForce E frame) self.m_panForce.value
  exact squaredNorm_blend_le _ b _ _ hs0 hs1 hP hF

theorem foldl_Update_squaredNorm_le (E : Env) (frames : List Frame) (self : Interaction)
    (b : ℚ) (h1 : self.m_panForce.first = false) (hP : self.m_panForce.value.squaredNorm ≤ b)
    (hF : ∀ f ∈ frames, (scaledForce E f).squaredNorm ≤ b) :
    (frames.foldl (Update E) self).m_panForce.value.squaredNorm ≤ b := by
  induction frames generalizing self with
  | nil => exact hP
  | cons f fs ih =>
    exact ih (Update E self f) (Update_first E self f)
      (Update_squaredNorm_le E self f b h1 hP (hF f (List.mem_cons_self f fs)))
      (fun g hg => hF g (List.mem_cons_of_mem f hg))

/-- C17: for a controller state whose pan smoother has had its first update (as every
state has from the constructor on), with pan value `P`, and a frame with scaled force
`F`, the pan value after `Update` has norm at most `max(|P|, |F|)` (stated for the norms
as real square roots and for the squared norms).  In the slow-down branch
(`|F|^2 ≤ |P|^2`) its norm is at most `|P|`; for `F = 0`, as for a frame with no hands,
the new value is exactly `0.95 P`.  So a bound on the squared norms of the pan value and
of the scaled forces of the frames is kept by every `Update` and every sequence of
them. -/
theorem Update_norm_bound (E : Env) (self : Interaction) (frame : Frame)
    (h1 : self.m_panForce.first = false) :
    (Update E self frame).m_panForce.value.squaredNorm
      ≤ max self.m_panForce.value.squaredNorm (scaledForce E frame).squaredNorm ∧
    Real.sqrt (((Update E self frame).m_panForce.value.squaredNorm : ℚ) : ℝ)
      ≤ max (Real.sqrt ((self.m_panForce.value.squaredNorm : ℚ) : ℝ))
          (Real.sqrt (((scaledForce E frame).squaredNorm : ℚ) : ℝ)) ∧
    ((scaledForce E frame).squaredNorm ≤ self.m_panForce.value.squaredNorm →
      (Update E self frame).m_panForce.value.squaredNorm
          ≤ self.m_panForce.value.squaredNorm ∧
        Real.sqrt (((Update E self frame).m_panForce.value.squaredNorm : ℚ) : ℝ)
          ≤ Real.sqrt ((self.m_panForce.value.squaredNorm : ℚ) : ℝ)) ∧
    (scaledForce E frame = 0 →
      (Update E self frame).m_panForce.value = (95 / 100 : ℚ) • self.m_panForce.value) ∧
    (frame.hands = [] →
      (Update E self frame).m_panForce.value = (95 / 100 : ℚ) • self.m_panForce.value) ∧
    (∀ b : ℚ, self.m_panForce.value.squaredNorm ≤ b → (scaledForce E frame).squaredNorm ≤ b →
      (Update E self frame).m_panForce.value.squaredNorm ≤ b) ∧
    (∀ (b : ℚ) (frames : List Frame), self.m_panForce.value.squaredNorm ≤ b →
      (∀ f ∈ frames, (scaledForce E f).squaredNorm ≤ b) →
      (frames.foldl (Update E) self).m_panForce.value.squaredNorm ≤ b) := by
  have hmax : (Update E self frame).m_panForce.value.squaredNorm
      ≤ max self.m_panForce.value.squaredNorm (scaledForce E frame).squaredNorm :=
    Update_squaredNorm_le E self frame _ h1 (le_max_left _ _) (le_max_right _ _)
  have hzero : scaledForce E frame = 0 →
      (Update E self frame).m_panForce.value = (95 / 100 : ℚ) • self.m_panForce.value := by
    intro hF
    rw [Update_value E self frame h1, hF, curSmooth_zero_left]
    ext <;> simp only [Vector3.add_x, Vector3.add_y, Vector3.add_z, Vector3.smul_x,
      Vector3.smul_y, Vector3.smul_z, Vector3.zero_x, Vector3.zero_y, Vector3.zero_z] <;> ring
  refine ⟨hmax, ?_, fun hle => ?_, hzero, fun hh => hzero ?_,
    fun b hP hF => Update_squaredNorm_le E self frame b h1 hP hF,
    fun b frames hP hF => foldl_Update_squaredNorm_le E frames self b h1 hP hF⟩
  · rcases le_total self.m_panForce.value.squaredNorm (scaledForce E frame).squaredNorm
      with hc | hc
    · rw [max_eq_right hc] at hmax
      exact le_trans (Real.sqrt_le_sqrt (by exact_mod_cast hmax)) (le_max_right _ _)
    · rw [max_eq_left hc] at hmax
      exact le_trans (Real.sqrt_le_sqrt (by exact_mod_cast hmax)) (le_max_left _ _)
  · have hb := Update_squaredNorm_le E self frame _ h1 (le_refl _) hle
    exact ⟨hb, Real.sqrt_le_sqrt (by exact_mod_cast hb)⟩
  · simp only [scaledForce, hh, List.map_nil, List.sum_nil]
    ext <;> simp

theorem Update_norm_bound_witness :
    Interaction.new.m_panForce.first = false ∧
    (Update sampleEnv Interaction.new ⟨true, 1000, []⟩).m_panForce.value
      = (95 / 100 : ℚ) • Interaction.new.m_panForce.value ∧
    (Update sampleEnv Interaction.new
        ⟨true, 1000, [sampleHand 0 0 [sampleFinger true]]⟩).m_panForce.value.squaredNorm
      ≤ max Interaction.new.m_panForce.value.squaredNorm
          (scaledForce sampleEnv
            ⟨true, 1000, [sampleHand 0 0 [sampleFinger true]]⟩).squaredNorm :=
  ⟨rfl, (Update_norm_bound sampleEnv Interaction.new ⟨true, 1000, []⟩ rfl).2.2.2.2.1 rfl,
    (Update_norm_bound sampleEnv Interaction.new
      ⟨true, 1000, [sampleHand 0 0 [sampleFinger true]]⟩ rfl).1⟩

/-! ## The range of the tile values -/

theorem SmootherStep_range (x : ℚ) : 0 ≤ SmootherStep x ∧ SmootherStep x ≤ 1 := by
  unfold SmootherStep
  split
  · constructor <;> norm_num
  · split
    · constructor <;> norm_num
    · rename_i h0 h1
      have hx0 : 0 < x := not_le.1 h0
      have hx1 : x < 1 := not_le.1 h1
      have hq : 0 ≤ 6 * x ^ 2 - 15 * x + 10 := by nlinarith [sq_nonneg (x - 5 / 4)]
      have hr : 0 ≤ 6 * x ^ 2 + 3 * x + 1 := by nlinarith [sq_nonneg x]
      have hx3 : 0 ≤ x ^ 3 := by positivity
      have hy3 : 0 ≤ (1 - x) ^ 3 := pow_nonneg (by linarith) 3
      constructor
      · have : 6 * x ^ 5 - 15 * x ^ 4 + 10 * x ^ 3 = x ^ 3 * (6 * x ^ 2 - 15 * x + 10) := by ring
        rw [this]
        exact mul_nonneg hx3 hq
      · have : 1 - (6 * x ^ 5 - 15 * x ^ 4 + 10 * x ^ 3)
            = (1 - x) ^ 3 * (6 * x ^ 2 + 3 * x + 1) := by ring
        have h := mul_nonneg hy3 hr
        linarith

theorem Update_value_range (f : ExponentialFilter ℚ) (data cur s : ℚ) (hs0 : 0 ≤ s)
    (hs1 : s ≤ 1) (hv0 : 0 ≤ f.value) (hv1 : f.value ≤ 1) (hd0 : 0 ≤ data) (hd1 : data ≤ 1) :
    0 ≤ (f.Update data cur s).value ∧ (f.Update data cur s).value ≤ 1 := by
  unfold ExponentialFilter.Update
  split
  · exact ⟨hd0, hd1⟩
  · simp only [smul_eq_mul]
    have h1s : 0 ≤ 1 - s := by linarith
    constructor
    · exact add_nonneg (mul_nonneg hs0 hv0) (mul_nonneg h1s hd0)
    · nlinarith [mul_le_mul_of_nonneg_left hv1 hs0, mul_le_mul_of_nonneg_left hd1 h1s]

theorem touchBy_range (E : Env) (cur : ℚ) (t : Tile) (hand : Hand)
    (hs0 : 0 ≤ E.ACTIVATION_SMOOTH) (hs1 : E.ACTIVATION_SMOOTH ≤ 1) (ht : TileInRange t) :
    TileInRange (touchBy E cur t hand) := by
  obtain ⟨a0, a1, b0, b1⟩ := ht
  have hg := SmootherStep_range (max hand.grabStrength hand.pinchStrength)
  have htarget : 0 ≤ (if t.m_highlightSmoother.value > 95 / 100 then grabMultiplier hand else 0)
      ∧ (if t.m_highlightSmoother.value > 95 / 100 then grabMultiplier hand else 0) ≤ 1 := by
    split
    · exact hg
    · constructor <;> norm_num
  have ha := Update_value_range t.m_activationSmoother _ cur E.ACTIVATION_SMOOTH hs0 hs1 a0 a1
    htarget.1 htarget.2
  have hh := Update_value_range t.m_highlightSmoother 1 cur E.ACTIVATION_SMOOTH hs0 hs1 b0 b1
    (by norm_num) (le_refl 1)
  exact ⟨ha.1, ha.2, hh.1, hh.2⟩

theorem decayTile_range (E : Env) (cur : ℚ) (t : Tile)
    (hs0 : 0 ≤ E.ACTIVATION_SMOOTH) (hs1 : E.ACTIVATION_SMOOTH ≤ 1) (ht : TileInRange t) :
    TileInRange (decayTile E cur t) := by
  obtain ⟨a0, a1, b0, b1⟩ := ht
  unfold decayTile
  split
  · have ha := Update_value_range t.m_activationSmoother 0 cur E.ACTIVATION_SMOOTH hs0 hs1 a0 a1
      (le_refl 0) (by norm_num)
    have hh := Update_value_range t.m_highlightSmoother 0 cur E.ACTIVATION_SMOOTH hs0 hs1 b0 b1
      (le_refl 0) (by norm_num)
    exact ⟨ha.1, ha.2, hh.1, hh.2⟩
  · exact ⟨a0, a1, b0, b1⟩

theorem foldl_touchBy_range (E : Env) (cur : ℚ) (hs : List Hand) (t : Tile)
    (hs0 : 0 ≤ E.ACTIVATION_SMOOTH) (hs1 : E.ACTIVATION_SMOOTH ≤ 1) (ht : TileInRange t) :
    TileInRange (hs.foldl (touchBy E cur) t) := by
  induction hs generalizing t with
  | nil => exact ht
  | cons h hs ih => exact ih (touchBy E cur t h) (touchBy_range E cur t h hs0 hs1 ht)

theorem applyInfluence_mem (E : Env) (cur : ℚ) (hands : List Hand) (view : View) (t2 : Tile)
    (h : t2 ∈ (applyInfluenceToTiles E cur hands view).tiles) :
    ∃ (j : Nat) (t : Tile), view.tiles[j]? = some t ∧
      t2 = decayTile E cur
        ((handsOn E view.lookAt view.tiles hands j).foldl (touchBy E cur) t) := by
  obtain ⟨j, hj⟩ := List.getElem?_of_mem h
  rw [applyInfluence_getElem?] at hj
  cases ht : view.tiles[j]? with
  | none => rw [ht] at hj; cases hj
  | some t =>
    rw [ht, Option.map_some', Option.some.injEq] at hj
    exact ⟨j, t, ht, hj.symm⟩

/-- C18: with `ACTIVATION_SMOOTH` in `[0,1]` and a tile collection in which every
activation and highlight value lies in `[0,1]`, after `applyInfluenceToTiles`, for any
hands (of any strengths, since `SmootherStep` is clamped to `[0,1]`) and any render time,
every activation and highlight value still lies in `[0,1]`. -/
theorem applyInfluence_range (E : Env) (cur : ℚ) (hands : List Hand) (view : View)
    (hs0 : 0 ≤ E.ACTIVATION_SMOOTH) (hs1 : E.ACTIVATION_SMOOTH ≤ 1)
    (hin : ∀ t ∈ view.tiles, TileInRange t) :
    ∀ t ∈ (applyInfluenceToTiles E cur hands view).tiles, TileInRange t := by
  intro t2 h2
  obtain ⟨j, t, hj, rfl⟩ := applyInfluence_mem E cur hands view t2 h2
  exact decayTile_range E cur _ hs0 hs1
    (foldl_touchBy_range E cur _ t hs0 hs1 (hin t (List.getElem?_mem hj)))

theorem sampleTile_range (px a h : ℚ) (ha0 : 0 ≤ a) (ha1 : a ≤ 1) (hh0 : 0 ≤ h) (hh1 : h ≤ 1) :
    TileInRange (sampleTile px a h) :=
  ⟨ha0, ha1, hh0, hh1⟩

theorem applyInfluence_range_witness :
    (0 ≤ sampleEnv.ACTIVATION_SMOOTH ∧ sampleEnv.ACTIVATION_SMOOTH ≤ 1) ∧
    (∀ t ∈ ((⟨[sampleTile 5 (1 / 2) 1, sampleTile 40 1 0], 0⟩ : View)).tiles, TileInRange t) ∧
    (∀ t ∈ (applyInfluenceToTiles sampleEnv 1 [sampleHand 1 0 [], sampleHand 0 1 []]
        ⟨[sampleTile 5 (1 / 2) 1, sampleTile 40 1 0], 0⟩).tiles, TileInRange t) := by
  have hs : 0 ≤ sampleEnv.ACTIVATION_SMOOTH ∧ sampleEnv.ACTIVATION_SMOOTH ≤ 1 := by
    constructor <;> norm_num [sampleEnv]
  have hin : ∀ t ∈ ((⟨[sampleTile 5 (1 / 2) 1, sampleTile 40 1 0], 0⟩ : View)).tiles,
      TileInRange t := by
    intro t ht
    simp only [List.mem_cons, List.mem_singleton, List.not_mem_nil, or_false] at ht
    rcases ht with rfl | rfl
    · exact sampleTile_range 5 _ _ (by norm_num) (by norm_num) (by norm_num) (by norm_num)
    · exact sampleTile_range 40 _ _ (by norm_num) (by norm_num) (by norm_num) (by norm_num)
  exact ⟨hs, hin, applyInfluence_range sampleEnv 1 _ _ hs.1 hs.2 hin⟩

/-! ## The timestamps of the tile smoothers -/

theorem touchBy_highlight_lastTime (E : Env) (cur : ℚ) (t : Tile) (hand : Hand) :
    (touchBy E cur t hand).m_highlightSmoother.lastTimeSeconds = cur := by
  simp only [touchBy, touchTile, ExponentialFilter.Update]
  split <;> rfl

theorem foldl_touchBy_highlight_lastTime (E : Env) (cur : ℚ) (hs : List Hand) (t : Tile)
    (h : hs ≠ []) :
    (hs.foldl (touchBy E cur) t).m_highlightSmoother.lastTimeSeconds = cur := by
  induction hs generalizing t with
  | nil => exact absurd rfl h
  | cons a hs ih =>
    cases hs with
    | nil => exact touchBy_highlight_lastTime E cur t a
    | cons b hs => exact ih (touchBy E cur t a) (by simp)

theorem decayTile_activation_lastTime (E : Env) (cur : ℚ) (t : Tile) :
    (decayTile E cur t).m_activationSmoother.lastTimeSeconds = cur := by
  unfold decayTile
  split
  · simp only [ExponentialFilter.Update]
    split <;> rfl
  · rename_i h
    exact not_not.1 h

theorem decayTile_highlight_lastTime (E : Env) (cur : ℚ) (t : Tile)
    (h : t.m_highlightSmoother.lastTimeSeconds = cur
      ∨ t.m_highlightSmoother.lastTimeSeconds = t.m_activationSmoother.lastTimeSeconds) :
    (decayTile E cur t).m_highlightSmoother.lastTimeSeconds = cur := by
  unfold decayTile
  split
  · simp only [ExponentialFilter.Update]
    split <;> rfl
  · rename_i hc
    rcases h with h | h
    · exact h
    · rw [h]
      exact not_not.1 hc

/-- C19: after `applyInfluenceToTiles` at render time `cur`, for every hand list, the
activation smoother of every tile is stamped with `cur`; and when in the initial
collection the activation and highlight smoothers of each tile carry equal timestamps,
the highlight smoother of every tile is stamped with `cur` as well. -/
theorem applyInfluence_stamps (E : Env) (cur : ℚ) (hands : List Hand) (view : View) :
    (∀ t ∈ (applyInfluenceToTiles E cur hands view).tiles,
      t.m_activationSmoother.lastTimeSeconds = cur) ∧
    ((∀ t ∈ view.tiles,
        t.m_activationSmoother.lastTimeSeconds = t.m_highlightSmoother.lastTimeSeconds) →
      ∀ t ∈ (applyInfluenceToTiles E cur hands view).tiles,
        t.m_activationSmoother.lastTimeSeconds = cur ∧
          t.m_highlightSmoother.lastTimeSeconds = cur) := by
  have hact : ∀ t ∈ (applyInfluenceToTiles E cur hands view).tiles,
      t.m_activationSmoother.lastTimeSeconds = cur := by
    intro t2 h2
    obtain ⟨j, t, hj, rfl⟩ := applyInfluence_mem E cur hands view t2 h2
    exact decayTile_activation_lastTime E cur _
  refine ⟨hact, fun heq t2 h2 => ⟨hact t2 h2, ?_⟩⟩
  obtain ⟨j, t, hj, rfl⟩ := applyInfluence_mem E cur hands view t2 h2
  apply decayTile_highlight_lastTime
  by_cases hnil : handsOn E view.lookAt view.tiles hands j = []
  · right
    rw [hnil, List.foldl_nil]
    exact (heq t (List.getElem?_mem hj)).symm
  · left
    exact foldl_touchBy_highlight_lastTime E cur _ t hnil

theorem applyInfluence_stamps_witness :
    (∀ t ∈ ((⟨[sampleTile 5 0 0, sampleTile 40 0 0], 0⟩ : View)).tiles,
        t.m_activationSmoother.lastTimeSeconds = t.m_highlightSmoother.lastTimeSeconds) ∧
    (∀ t ∈ (applyInfluenceToTiles sampleEnv 1 [sampleHand 0 0 []]
        ⟨[sampleTile 5 0 0, sampleTile 40 0 0], 0⟩).tiles,
      t.m_activationSmoother.lastTimeSeconds = 1 ∧
        t.m_highlightSmoother.lastTimeSeconds = 1) := by
  have hin : ∀ t ∈ ((⟨[sampleTile 5 0 0, sampleTile 40 0 0], 0⟩ : View)).tiles,
      t.m_activationSmoother.lastTimeSeconds = t.m_highlightSmoother.lastTimeSeconds := by
    intro t ht
    simp only [List.mem_cons, List.mem_singleton, List.not_mem_nil, or_false] at ht
    rcases ht with rfl | rfl <;> rfl
  exact ⟨hin, (applyInfluence_stamps sampleEnv 1 [sampleHand 0 0 []]
    ⟨[sampleTile 5 0 0, sampleTile 40 0 0], 0⟩).2 hin⟩

end Interaction

end Leapshell
